import Mathlib

/-!
Verification of the chapter generation workflow engine
(`backend/apps/agents/services/orchestration.py` and
`backend/apps/books/services/pipeline.py`).

Python strings are modelled as `List Char` (`Str`), Python ints as `Nat`/`Int`
with the source's arithmetic made explicit, dicts with a fixed key set as
structures, and heterogeneous payload dicts as structures holding the fields
the engine reads.  Fallible code returns `Except`/`Option`.
-/

namespace BookAgent

/-- Python strings, modelled as lists of characters. -/
abbrev Str := List Char

/-- The whitespace class used by Python `str.split()` / `str.strip()`
(ASCII whitespace; the engine only ever feeds it ASCII text markers). -/
def isSpaceChar (c : Char) : Bool :=
  c == ' ' || c == '\t' || c == '\n' || c == '\r' || c == '\x0b' || c == '\x0c'

/-- Python `str.strip()`: drop whitespace from both ends. -/
def strip (s : Str) : Str :=
  ((s.dropWhile isSpaceChar).reverse.dropWhile isSpaceChar).reverse

/-- Python `str.lower()` (on the ASCII configuration strings the engine reads). -/
def lowerStr (s : Str) : Str := s.map Char.toLower

/-- Does `hay` start with `needle`?  (Helper for substring search.) -/
def startsWithStr : Str → Str → Bool
  | [], _ => true
  | _ :: _, [] => false
  | a :: as, b :: bs => a == b && startsWithStr as bs

/-- Python `needle in hay` on strings: substring containment. -/
def containsSub (needle : Str) : Str → Bool
  | [] => needle.isEmpty
  | c :: rest => startsWithStr needle (c :: rest) || containsSub needle rest

/-- Tokenizer worker: `acc` holds the reversed characters of the current
(possibly empty) run of non-whitespace characters. -/
def pyTokensAux : Str → Str → List Str
  | [], acc => if acc.isEmpty then [] else [acc.reverse]
  | c :: cs, acc =>
    if isSpaceChar c then
      if acc.isEmpty then pyTokensAux cs []
      else acc.reverse :: pyTokensAux cs []
    else pyTokensAux cs (c :: acc)

/-- Python `str.split()` with no separator: the maximal runs of
non-whitespace characters, in order (empty runs never occur). -/
def pyTokens (s : Str) : List Str := pyTokensAux s []

/-!
Review score normalization (`_chapter_node_review`, orchestration.py:437-440):
`score = max(0, min(100, int(float(str(review.get("score", 0))))))` with any
parse failure mapped to 0.  A raw score value either parses as a (finite)
number, modelled by a rational, or fails to parse (`nan`: strings that are not
numeric, infinities, NaN — `int()` raises on all of them).
-/

/-- The raw `score` value found in a provider review payload, as seen by
`int(float(str(...)))`: a finite numeric value, or an unparseable one. -/
inductive ScoreVal where
  | num (q : ℚ)
  | nan
deriving DecidableEq

/-- Python `int(x)` on a float: truncation toward zero. -/
def truncToward0 (q : ℚ) : ℤ :=
  if 0 ≤ q then ⌊q⌋ else ⌈q⌉

/-- `max(0, min(100, n))`. -/
def clamp0100 (n : ℤ) : ℤ := max 0 (min 100 n)

/-- The full score normalization of `_chapter_node_review` /
`_chapter_route_review`: truncate, clamp to `[0, 100]`, unparseable becomes 0. -/
def parseScore : ScoreVal → ℤ
  | .num q => clamp0100 (truncToward0 q)
  | .nan => 0

/-!
Guardrail evaluator (`_review_guardrails`, orchestration.py:700-711) and the
minimum-word-count table (`_MIN_WORDS_BY_CHAPTER_LENGTH`,
`_minimum_word_count_for_project`, orchestration.py:16-21, 713-723).
-/

/-- Issue text `"Chapter content is empty."`. -/
def emptyIssue : Str := "Chapter content is empty.".toList

/-- Issue text `"Chapter is missing at least one '##' section heading."`. -/
def headingIssue : Str :=
  "Chapter is missing at least one '##' section heading.".toList

/-- Issue text `f"Chapter word count {word_count} is below minimum {minimum}."`. -/
def belowMinimumIssue (wordCount minimum : Nat) : Str :=
  "Chapter word count ".toList ++ (Nat.repr wordCount).toList ++
    " is below minimum ".toList ++ (Nat.repr minimum).toList ++ ".".toList

/-- The `"## "` marker whose absence raises the heading issue. -/
def headingMarker : Str := "## ".toList

/-- `_minimum_word_count_for_project`: strip and lower-case the project
profile's `chapterLength` string (`_project_profile` reads it from
`metadata_json.user_concept.profile`, falling back to the legacy
`metadata_json.profile`; a missing value gives the empty string) and pick
the first matching tier by substring test
(`short→900, medium→1800, long→3000`, anything else `→1200`). -/
def minimumWordCountForProject (chapterLength : Str) : Nat :=
  let cl := lowerStr (strip chapterLength)
  if containsSub "short".toList cl then 900
  else if containsSub "medium".toList cl then 1800
  else if containsSub "long".toList cl then 3000
  else 1200

/-- `_review_guardrails`: strip the content, count whitespace-delimited tokens
that are non-empty after stripping, and report the three issues in their fixed
order.  Returns `(issues, word_count, minimum_word_count)`. -/
def reviewGuardrails (chapterLength : Str) (content : Str) :
    List Str × Nat × Nat :=
  let text := strip content
  let wordCount := ((pyTokens text).filter (fun t => !(strip t).isEmpty)).length
  let minimum := minimumWordCountForProject chapterLength
  let issues :=
    (if text.isEmpty then [emptyIssue] else []) ++
    (if !containsSub headingMarker text then [headingIssue] else []) ++
    (if wordCount < minimum then [belowMinimumIssue wordCount minimum] else [])
  (issues, wordCount, minimum)

/-!
Review node (`_chapter_node_review`, orchestration.py:406-482) and the review
transition predicate (`_chapter_route_review`, orchestration.py:484-501).
-/

/-- The fallback-marker fields every provider stage payload carries
(`used_fallback`, `fallback_stage`, `fallback_stages`), as read by
`_merge_fallback_stages`. -/
structure StagePayload where
  used_fallback : Bool
  fallback_stage : Str
  fallback_stages : List Str
deriving DecidableEq, Repr

/-- The `review` object of a provider review payload, with the fields
`_chapter_node_review` reads: `score` (raw), `should_revise` (after Python
truthiness), `issues`, `critique`.  A payload whose `review` key is missing or
not a dict behaves as the all-defaults value
`⟨.num 0, false, [], []⟩` (`review = {}`). -/
structure ReviewObj where
  score : ScoreVal
  should_revise : Bool
  issues : List Str
  critique : Str
deriving DecidableEq

/-- A provider review payload: the `review` object plus fallback markers. -/
structure ReviewPayload where
  review : ReviewObj
  fb : StagePayload
deriving DecidableEq

/-- The normalized review record the review node stores in
`state["review_result"]` (spec §3 "Review"). -/
structure Review where
  score : ℤ
  should_revise : Bool
  effective_should_revise : Bool
  guardrail_fail : Bool
  guardrail_issues : List Str
  word_count : Nat
  minimum_word_count : Nat
  issues : List Str
  critique : Str
deriving DecidableEq

/-- The dedup-append loop
`for issue in new: if issue not in acc: acc.append(issue)`. -/
def dedupAppend (acc : List Str) (new : List Str) : List Str :=
  new.foldl (fun acc i => if i ∈ acc then acc else acc ++ [i]) acc

/-- The critique synthesized when revision is triggered but the model left the
critique empty (orchestration.py:453). -/
def defaultCritique : Str :=
  "Revise for stronger concept alignment, add depth, and improve section structure.".toList

/-- The review-blending core of `_chapter_node_review` (orchestration.py:433-463):
normalize the score, strip the model issues and critique, layer the guardrail
issues on top, compute `effective_should_revise`, and synthesize a critique if
needed.  `chapterLength` is the project profile's `chapterLength` string and
`content` the current draft content as passed to the guardrails. -/
def chapterNodeReviewCore (chapterLength : Str) (payload : ReviewObj)
    (content : Str) : Review :=
  let score := parseScore payload.score
  let explicitShouldRevise := payload.should_revise
  let issues0 := (payload.issues.map strip).filter (fun i => !i.isEmpty)
  let critique0 := strip payload.critique
  let g := reviewGuardrails chapterLength content
  let guardrailIssues := g.1
  let issues := dedupAppend issues0 guardrailIssues
  let guardrailFail := !guardrailIssues.isEmpty
  let effective := explicitShouldRevise || decide (score < 80) || guardrailFail
  let critique :=
    if effective && critique0.isEmpty then defaultCritique else critique0
  { score := score
    should_revise := explicitShouldRevise
    effective_should_revise := effective
    guardrail_fail := guardrailFail
    guardrail_issues := guardrailIssues
    word_count := g.2.1
    minimum_word_count := g.2.2
    issues := issues
    critique := critique }

/-- The two outcomes of the review transition. -/
inductive Route where
  | revise
  | persist
deriving DecidableEq

/-- `_chapter_route_review` on a review record stored by the review node: read
the stored `effective_should_revise`; if it is false, recompute it from the
stored score (re-parsed through `int(float(str(...)))`, the identity on a
stored int, then re-clamped), `should_revise` and `guardrail_fail`; revise
exactly when effective and `revision_count < max_revisions`. -/
def chapterRouteReview (review : Review) (revisionCount maxRevisions : Nat) :
    Route :=
  let effective :=
    if review.effective_should_revise then true
    else
      let score := clamp0100 review.score
      review.should_revise || decide (score < 80) || review.guardrail_fail
  if effective && decide (revisionCount < maxRevisions) then .revise else .persist

/-!
Fallback aggregation (`_merge_fallback_stages`, orchestration.py:674-692, and
`_with_fallback_output`, orchestration.py:694-698).
-/

/-- One step of the merge loops: strip the item and append it when it is
non-empty and not yet present. -/
def appendStageIfNew (acc : List Str) (item : Str) : List Str :=
  let text := strip item
  if !text.isEmpty && decide (text ∉ acc) then acc ++ [text] else acc

/-- `_merge_fallback_stages`: rebuild the list from the existing entries, then
the payload's `fallback_stages` entries, then — when `used_fallback` — the
payload's `fallback_stage` name, each stripped and appended only when
non-empty and not already present (the `used_fallback` block performs exactly
one more `appendStageIfNew` step). -/
def mergeFallbackStages (existing : List Str) (payload : StagePayload) :
    List Str :=
  if payload.used_fallback then
    appendStageIfNew
      (payload.fallback_stages.foldl appendStageIfNew
        (existing.foldl appendStageIfNew []))
      payload.fallback_stage
  else
    payload.fallback_stages.foldl appendStageIfNew
      (existing.foldl appendStageIfNew [])

/-!
The chapter subgraph (`_build_chapter_graph`, orchestration.py:127-148, and the
node callbacks).  The graph is `retrieve → plan → draft → review` with a
conditional back-edge `review → draft` and exit `review → persist`.  The state
below carries the fields the draft/review/persist nodes read and write;
provider payloads are supplied by an environment mapping the k-th draft/review
call to its payload.  LangGraph's unbounded cyclic execution is modelled by a
fuel-indexed loop; the termination theorem below shows the fuel used by
`runChapterGraph` always suffices, so the `none` (non-termination) case never
occurs.
-/

/-- A provider draft payload: the drafted chapter's `content` plus fallback
markers (`draft_or_revise_chapter`). -/
structure DraftPayload where
  content : Str
  fb : StagePayload
deriving DecidableEq

/-- The environment of one chapter run: the project profile's `chapterLength`
string and the provider payloads for the plan stage and for each successive
draft/review iteration. -/
structure ProviderEnv where
  chapterLength : Str
  plan_fb : StagePayload
  draft : Nat → DraftPayload
  review : Nat → ReviewPayload

/-- The subgraph state threaded through the draft/review cycle:
`revision_count`, `review_result` (`none` models the empty dict installed by
the retrieve node), the current draft content, and the accumulated fallback
stage list. -/
structure LoopState where
  revision_count : Nat
  review_result : Option Review
  chapter_draft : Str
  fallback_stages : List Str
deriving DecidableEq

/-- The critique the draft node extracts from the prior review:
`str(review_result.get("critique", "")).strip()` (empty dict gives `""`). -/
def critiqueOfReviewResult : Option Review → Str
  | none => []
  | some r => strip r.critique

/-- `_chapter_node_draft` (orchestration.py:347-404), k-th execution: extract
the prior critique, call the provider, increment `revision_count` exactly when
the critique was non-empty, store the new draft content, merge fallback
markers. -/
def draftStep (env : ProviderEnv) (k : Nat) (st : LoopState) : LoopState :=
  let critique := critiqueOfReviewResult st.review_result
  let payload := env.draft k
  let rc := if critique.isEmpty then st.revision_count else st.revision_count + 1
  { revision_count := rc
    review_result := st.review_result
    chapter_draft := payload.content
    fallback_stages := mergeFallbackStages st.fallback_stages payload.fb }

/-- `_chapter_node_review` (orchestration.py:406-482), k-th execution: strip
the draft content, call the provider, normalize and store the review record,
merge fallback markers. -/
def reviewStep (env : ProviderEnv) (k : Nat) (st : LoopState) : LoopState :=
  let content := strip st.chapter_draft
  let payload := env.review k
  let r := chapterNodeReviewCore env.chapterLength payload.review content
  { st with
      review_result := some r
      fallback_stages := mergeFallbackStages st.fallback_stages payload.fb }

/-- The review record the k-th review node execution stores (the k-th draft's
content reviewed against the k-th review payload). -/
def reviewAt (env : ProviderEnv) (k : Nat) : Review :=
  chapterNodeReviewCore env.chapterLength (env.review k).review
    (strip (env.draft k).content)

/-- `_chapter_route_review` as run on the subgraph state: route on the stored
review record (a state whose review result is not a dict yields
`effective = False`, hence persist). -/
def chapterRouteReviewState (st : LoopState) (maxRevisions : Nat) : Route :=
  match st.review_result with
  | some r => chapterRouteReview r st.revision_count maxRevisions
  | none => .persist

/-- The draft → review → route cycle, with `fuel` bounding the number of
iterations the model will unfold (the termination theorem shows
`maxRevisions + 2` always suffices).  `k` numbers the iterations.  Returns the
state after the last review, the total number of draft/review iterations, and
the trace of `revision_count` values recorded at each draft/review node end. -/
def chapterLoop (env : ProviderEnv) (maxRevisions : Nat) :
    Nat → Nat → LoopState → Option (LoopState × Nat × List Nat)
  | 0, _, _ => none
  | fuel + 1, k, st =>
    if chapterRouteReviewState (reviewStep env k (draftStep env k st))
        maxRevisions = Route.revise then
      match chapterLoop env maxRevisions fuel (k + 1)
          (reviewStep env k (draftStep env k st)) with
      | none => none
      | some (stF, n, tr) =>
        some (stF, n, (draftStep env k st).revision_count ::
          (reviewStep env k (draftStep env k st)).revision_count :: tr)
    else
      some (reviewStep env k (draftStep env k st), k + 1,
        [(draftStep env k st).revision_count,
          (reviewStep env k (draftStep env k st)).revision_count])

/-- The observable outcome of one chapter run: final state, per-node call
counts, the output's fallback fields (`_with_fallback_output` applied by the
persist node), the final progress record's `revision_count`, and the trace of
`revision_count` values at the successive node completions
(retrieve, plan, draft/review iterations, persist). -/
structure ChapterOutcome where
  final : LoopState
  draft_calls : Nat
  review_calls : Nat
  plan_calls : Nat
  persist_calls : Nat
  output_fallback_stages : List Str
  output_used_fallback : Bool
  progress_revision_count : Nat
  rc_trace : List Nat
deriving DecidableEq

/-- The subgraph state built by `_node_chapter` (orchestration.py:208-218):
`revision_count = 0`, no review result, no draft, empty fallback list (the
parent run's list, `[]` at that point). -/
def initialLoopState : LoopState :=
  { revision_count := 0
    review_result := none
    chapter_draft := []
    fallback_stages := [] }

/-- One chapter-mode run after a successful retrieve: plan once (merging its
fallback markers), run the draft/review cycle, persist once.  Each loop
iteration is exactly one draft node plus one review node execution, so both
call counts equal the iteration count. -/
def runChapterGraph (env : ProviderEnv) (maxRevisions : Nat) :
    Option ChapterOutcome :=
  match chapterLoop env maxRevisions (maxRevisions + 2) 0
      { revision_count := 0
        review_result := none
        chapter_draft := []
        fallback_stages := mergeFallbackStages [] env.plan_fb } with
  | none => none
  | some (st, n, tr) =>
    some { final := st
           draft_calls := n
           review_calls := n
           plan_calls := 1
           persist_calls := 1
           output_fallback_stages := st.fallback_stages
           output_used_fallback := !st.fallback_stages.isEmpty
           progress_revision_count := st.revision_count
           rc_trace := 0 :: 0 :: tr ++ [st.revision_count] }

/-- The fallback-carrying stage payloads consumed by `m` draft/review
iterations starting at iteration `k`, in execution order. -/
def stageSeqFrom (env : ProviderEnv) (k : Nat) : Nat → List StagePayload
  | 0 => []
  | m + 1 => (env.draft k).fb :: (env.review k).fb :: stageSeqFrom env (k + 1) m

/-!
Chapter context retrieval (`prepare_chapter_context`, `_normalize_outline` and
`_to_int`, pipeline.py:236-263, 399-439), and the chapter-mode run with the
retrieve node in front of the subgraph.
-/

/-- A raw outline chapter as stored in `project.outline_json`.  The `number`
field is `none` when the value is missing or does not parse as an integer
(`_to_int` raises on those). -/
structure RawOutlineChapter where
  number : Option Int
  title : Str
  bullet_points : List Str

/-- A raw outline as stored in `project.outline_json`.  A project with no
outline (`outline_json` empty or falsy, `project.outline_json or {}`) is
modelled by `none` at the use site. -/
structure RawOutline where
  synopsis : Str
  chapters : List RawOutlineChapter

/-- A normalized outline chapter. -/
structure NormChapter where
  number : Int
  title : Str
  bullet_points : List Str
deriving DecidableEq

/-- A normalized outline. -/
structure NormOutline where
  synopsis : Str
  chapters : List NormChapter
deriving DecidableEq

/-- The chapter loop of `_normalize_outline`: numbers must be present and
sequential starting at `expected`, titles non-empty after stripping, bullet
points stripped and filtered. -/
def normalizeChapters : List RawOutlineChapter → Int →
    Except Str (List NormChapter)
  | [], _ => .ok []
  | ⟨none, _, _⟩ :: _, _ =>
    .error "outline.chapter.number must be a valid integer".toList
  | ⟨some n, title, bullets⟩ :: rest, expected =>
    if n ≠ expected then
      .error "outline chapter numbers must be sequential starting at 1".toList
    else if (strip title).isEmpty then
      .error "outline chapter missing title".toList
    else
      match normalizeChapters rest (expected + 1) with
      | .error e => .error e
      | .ok tail =>
        .ok ({ number := n
               title := strip title
               bullet_points :=
                 (bullets.map strip).filter (fun p => !p.isEmpty) }
             :: tail)

/-- `_normalize_outline` (pipeline.py:399-431): reject a missing outline or an
empty chapter list, else normalize every chapter against the expected
sequence 1, 2, …. -/
def normalizeOutline (outline : Option RawOutline) : Except Str NormOutline :=
  match outline with
  | none => .error "outline.chapters must be a non-empty array".toList
  | some ol =>
    if ol.chapters.isEmpty then
      .error "outline.chapters must be a non-empty array".toList
    else
      match normalizeChapters ol.chapters 1 with
      | .error e => .error e
      | .ok cs => .ok { synopsis := strip ol.synopsis, chapters := cs }

/-- `prepare_chapter_context` (pipeline.py:236-263), the validation part run by
the retrieve node before any generation call: normalize the outline (raising
`"Project does not have an outline yet"` when it has no chapters), parse the
requested chapter number (`none` models a missing or unparseable input), and
look up the target chapter by number.  The memory/knowledge vector searches do
not affect validation and carry no claim content. -/
def prepareChapterContext (outlineJson : Option RawOutline)
    (chapterNumberInput : Option Int) :
    Except Str (NormOutline × Int × NormChapter) :=
  match normalizeOutline outlineJson with
  | .error e => .error e
  | .ok outline =>
    if outline.chapters.isEmpty then
      .error "Project does not have an outline yet".toList
    else
      match chapterNumberInput with
      | none => .error "chapter_number is required".toList
      | some k =>
        match outline.chapters.find? (fun c => c.number == k) with
        | none => .error "chapter_number is outside outline range".toList
        | some target => .ok (outline, k, target)

/-- Per-stage generation/persistence call counts of one run. -/
structure Counters where
  plan_calls : Nat
  draft_calls : Nat
  review_calls : Nat
  persist_calls : Nat
deriving DecidableEq

/-- The outcome of a whole chapter-mode run: a fatal error in a named node
(with the provider-call counters at that point), or the subgraph outcome.
`stuck` is the loop-fuel artifact, proved unreachable. -/
inductive RunOutcome where
  | failed (node : Str) (msg : Str) (counters : Counters)
  | ok (outcome : ChapterOutcome)
  | stuck
deriving DecidableEq

/-- The inputs of a chapter-mode run that decide retrieval. -/
structure ChapterRunInputs where
  outline_json : Option RawOutline
  chapter_number : Option Int

/-- A chapter-mode run (`_node_chapter` driving
`retrieve → plan → draft/review cycle → persist`): the retrieve node validates
the outline and chapter number first; any error there aborts the run before
the plan node, so with zero provider calls. -/
def runChapterMode (inp : ChapterRunInputs) (env : ProviderEnv)
    (maxRevisions : Nat) : RunOutcome :=
  match prepareChapterContext inp.outline_json inp.chapter_number with
  | .error e =>
    .failed "chapter_retrieve_context".toList e
      { plan_calls := 0, draft_calls := 0, review_calls := 0, persist_calls := 0 }
  | .ok _ =>
    match runChapterGraph env maxRevisions with
    | none => .stuck
    | some o => .ok o

/-!
Chapter persistence (`persist_chapter_result`, pipeline.py:265-316).  The
stored chapters of one project are modelled as an association list from
chapter number to record; `Chapter.objects.update_or_create(project=…,
number=…, defaults=…)` updates the row with that key when it exists (the
`unique_together ("project", "number")` constraint makes it unique) and
inserts it otherwise.
-/

/-- Python dict/DB keyed update: replace the value at the first matching key,
keeping its position, else append the new pair. -/
def dictSet {κ β : Type} [DecidableEq κ] :
    List (κ × β) → κ → β → List (κ × β)
  | [], k, v => [(k, v)]
  | (k0, v0) :: rest, k, v =>
    if k0 = k then (k, v) :: rest else (k0, v0) :: dictSet rest k v

/-- The stored fields of a chapter row written by `persist_chapter_result`. -/
structure ChapterRecord where
  title : Str
  content : Str
  summary : Str
  status : Str
deriving DecidableEq

/-- One project's stored chapters, keyed by chapter number. -/
abbrev ChapterStore := List (Int × ChapterRecord)

/-- The `chapter_data` dict fields `persist_chapter_result` reads; an empty
string models a missing or falsy value (`chapter_data.get("title")`). -/
structure ChapterData where
  title : Str
  content : Str
  summary : Str
deriving DecidableEq

/-- `f"Chapter {chapter_number}"`. -/
def chapterDefaultTitle (chapterNumber : Int) : Str :=
  "Chapter ".toList ++ (Int.repr chapterNumber).toList

/-- The chapter row `persist_chapter_result` computes:
`str(chapter_data.get("title") or target.get("title", "")).strip() or
f"Chapter {n}"`, the stripped content and summary, status `generated`. -/
def persistRecord (chapterNumber : Int) (targetTitle : Str)
    (chapterData : ChapterData) : ChapterRecord :=
  { title :=
      if (strip (if chapterData.title.isEmpty then targetTitle
                 else chapterData.title)).isEmpty
      then chapterDefaultTitle chapterNumber
      else strip (if chapterData.title.isEmpty then targetTitle
                  else chapterData.title)
    content := strip chapterData.content
    summary := strip chapterData.summary
    status := "generated".toList }

/-- `persist_chapter_result` (pipeline.py:265-316) on the chapter store:
reject empty content, compute the row (`persistRecord`) and `update_or_create`
it under the chapter number.  Returns the new store and the stored record (the
persisted output's `chapter` fields).  The vector-memory upsert and
project-status update touch other entities and are outside this model. -/
def persistChapterResult (store : ChapterStore) (chapterNumber : Int)
    (targetTitle : Str) (chapterData : ChapterData) :
    Except Str (ChapterStore × ChapterRecord) :=
  if (strip chapterData.content).isEmpty then
    .error "Generated chapter content is empty".toList
  else
    .ok (dictSet store chapterNumber
          (persistRecord chapterNumber targetTitle chapterData),
        persistRecord chapterNumber targetTitle chapterData)

/-!
Telemetry tracker (`_mark_node_start`, `_mark_node_end`, `_mark_node_error`,
`_copy_progress`, orchestration.py:549-660).  `_copy_progress` shallow-copies
the progress dict and replaces `node_status` and `completed_nodes` with fresh
copies, but the `node_meta` value keeps pointing at the caller's dict; each
tracker call below therefore returns both the new snapshot and the caller's
prior snapshot as it stands after the call, making any in-place mutation of
shared structure explicit.  The best-effort DB write
(`_persist_run_telemetry`) never touches these in-memory structures.
-/

/-- The diagnostic values stored in `node_meta` entries. -/
inductive PyVal where
  | str (s : Str)
  | int (n : ℤ)
  | bool (b : Bool)
deriving DecidableEq

/-- An `optional_meta` dict. -/
abbrev MetaDict := List (Str × PyVal)

/-- A progress snapshot (spec §3 "Progress").  `node_meta = none` models the
`node_meta` key being absent from the dict. -/
structure Progress where
  current_node : Str
  node_status : List (Str × Str)
  completed_nodes : List Str
  revision_count : Nat
  node_meta : Option (List (Str × MetaDict))
  last_error : Option Str
deriving DecidableEq

/-- The result of one tracker call: the snapshot it returns, and the caller's
prior snapshot as left behind by the call. -/
structure TrackerResult where
  snapshot : Progress
  prior_after : Progress
deriving DecidableEq

/-- Python truthiness of the `optional_meta` argument (`if optional_meta:`):
false for `None` and for an empty dict. -/
def metaTruthy : Option MetaDict → Bool
  | none => false
  | some m => !m.isEmpty

/-- `_mark_node_start`: copy, set `current_node`, mark the node `running`,
store the resolved revision count.  Touches no shared structure. -/
def markNodeStart (prior : Progress) (node : Str) (revisionCount : Nat) :
    TrackerResult :=
  { snapshot :=
      { prior with
          current_node := node
          node_status := dictSet prior.node_status node "running".toList
          revision_count := revisionCount }
    prior_after := prior }

/-- `_mark_node_end`: copy, mark the node `completed`, append it to
`completed_nodes` when new, store the revision count, and — when
`optional_meta` is truthy — write it into `node_meta[node]`.  The `node_meta`
dict is the one object `_copy_progress` does not copy: when the prior snapshot
already has one, the write mutates it in place, so the caller's prior snapshot
changes too. -/
def markNodeEnd (prior : Progress) (node : Str) (optionalMeta : Option MetaDict)
    (revisionCount : Nat) : TrackerResult :=
  let completed :=
    if node ∈ prior.completed_nodes then prior.completed_nodes
    else prior.completed_nodes ++ [node]
  let base :=
    { prior with
        current_node := node
        node_status := dictSet prior.node_status node "completed".toList
        completed_nodes := completed
        revision_count := revisionCount }
  if metaTruthy optionalMeta then
    let m := optionalMeta.getD []
    match prior.node_meta with
    | none =>
      { snapshot := { base with node_meta := some (dictSet [] node m) }
        prior_after := prior }
    | some nm =>
      let nm := dictSet nm node m
      { snapshot := { base with node_meta := some nm }
        prior_after := { prior with node_meta := some nm } }
  else
    { snapshot := base, prior_after := prior }

/-- `_mark_node_error`: copy, mark the node `failed`, store the revision count
and the truncated error text.  Touches no shared structure. -/
def markNodeError (prior : Progress) (node : Str) (error : Str)
    (revisionCount : Nat) : TrackerResult :=
  { snapshot :=
      { prior with
          current_node := node
          node_status := dictSet prior.node_status node "failed".toList
          revision_count := revisionCount
          last_error := some (error.take 500) }
    prior_after := prior }

/-!
Spec-side definitions and concrete inputs used by the verification statements.
-/

/-- The fallback merge as the specification states it, word for word: append
each string of the payload's `fallback_stages` that is not already present,
then the payload's `fallback_stage` name when `used_fallback` is true and that
name is non-empty and not already present, keeping the existing list as the
prefix.  (Spec-side definition, to be compared with `mergeFallbackStages`.) -/
def mergeFallbackStagesClaimed (existing : List Str) (payload : StagePayload) :
    List Str :=
  let stages := payload.fallback_stages.foldl
    (fun acc item => if item ∈ acc then acc else acc ++ [item]) existing
  if payload.used_fallback && !payload.fallback_stage.isEmpty
      && decide (payload.fallback_stage ∉ stages) then
    stages ++ [payload.fallback_stage]
  else stages

/-- Every review of a run triggers revision: each review record the review
node would store has `effective_should_revise = true`. -/
def allReviewsTriggerRevision (env : ProviderEnv) : Prop :=
  ∀ k, (reviewAt env k).effective_should_revise = true

/-- A stage payload reporting no fallback. -/
def noFallback : StagePayload :=
  { used_fallback := false, fallback_stage := [], fallback_stages := [] }

/-- A plan-stage payload reporting a fallback. -/
def planFallback : StagePayload :=
  { used_fallback := true, fallback_stage := "chapter_plan".toList
    fallback_stages := [] }

/-- A review-stage payload reporting a fallback. -/
def reviewFallback : StagePayload :=
  { used_fallback := true, fallback_stage := "chapter_review".toList
    fallback_stages := [] }

/-- A concrete review object: score 65, explicit revise request. -/
def exampleReviewObj : ReviewObj :=
  { score := .num 65
    should_revise := true
    issues := ["Needs more depth".toList]
    critique := "Add stronger examples and continuity links.".toList }

/-- A concrete run environment: the plan and every review fall back, every
review asks for revision. -/
def exampleEnv : ProviderEnv :=
  { chapterLength := []
    plan_fb := planFallback
    draft := fun _ =>
      { content := "# Foundations\n\nDraft body.".toList, fb := noFallback }
    review := fun _ => { review := exampleReviewObj, fb := reviewFallback } }

/-- Placeholder outcome, used only as the `Option.getD` default where a
statement evaluates a run that provably returns `some`. -/
def dummyOutcome : ChapterOutcome :=
  { final := initialLoopState
    draft_calls := 0
    review_calls := 0
    plan_calls := 0
    persist_calls := 0
    output_fallback_stages := []
    output_used_fallback := false
    progress_revision_count := 0
    rc_trace := [] }

/-- A concrete progress snapshot as it stands after the plan node completed
with diagnostic metadata: its `node_meta` dict is present. -/
def examplePriorProgress : Progress :=
  { current_node := "chapter_plan".toList
    node_status := [("chapter_plan".toList, "completed".toList)]
    completed_nodes := ["chapter_plan".toList]
    revision_count := 0
    node_meta := some
      [("chapter_plan".toList, [("used_fallback".toList, PyVal.bool true)])]
    last_error := none }

/-- A concrete `optional_meta` dict for a draft node end. -/
def exampleDraftMeta : MetaDict := [("used_fallback".toList, PyVal.bool false)]

/-- A concrete stored chapter row. -/
def exampleChapterRecord : ChapterRecord :=
  { title := "Foundations".toList
    content := "## Body".toList
    summary := []
    status := "generated".toList }

/-- A concrete `chapter_data` payload (no title of its own). -/
def exampleChapterData : ChapterData :=
  { title := [], content := "## Body".toList, summary := [] }

/-- The store holding exactly the concrete row under chapter number 1. -/
def exampleChapterStore : ChapterStore := [(1, exampleChapterRecord)]

/-- A concrete two-chapter raw outline. -/
def exampleRawOutline : RawOutline :=
  { synopsis := []
    chapters :=
      [ { number := some 1, title := "Foundations".toList, bullet_points := [] }
      , { number := some 2, title := "Advanced".toList, bullet_points := [] } ] }

/-! ### Lemmas about the string model -/

theorem dropWhile_length_le (p : Char → Bool) (l : Str) :
    (l.dropWhile p).length ≤ l.length := by
  induction l with
  | nil => simp
  | cons a l ih =>
    rw [List.dropWhile_cons]
    split
    · exact Nat.le_trans ih (Nat.le_succ _)
    · exact Nat.le_refl _

theorem dropWhile_idem (p : Char → Bool) (l : Str) :
    (l.dropWhile p).dropWhile p = l.dropWhile p := by
  induction l with
  | nil => simp
  | cons a l ih =>
    by_cases h : p a = true
    · simp [List.dropWhile_cons, h, ih]
    · simp [List.dropWhile_cons, h]

theorem rdrop_decomp (p : Char → Bool) (l : Str) :
    ∃ w, l = (l.reverse.dropWhile p).reverse ++ w ∧ ∀ c ∈ w, p c = true := by
  refine ⟨(l.reverse.takeWhile p).reverse, ?_, ?_⟩
  · conv_lhs => rw [← l.reverse_reverse,
      ← List.takeWhile_append_dropWhile (p := p) (l := l.reverse)]
    rw [List.reverse_append]
  · intro c hc
    exact List.mem_takeWhile_imp (List.mem_reverse.mp hc)

theorem strip_decomp (s : Str) :
    ∃ w, s.dropWhile isSpaceChar = strip s ++ w ∧
      ∀ c ∈ w, isSpaceChar c = true :=
  rdrop_decomp isSpaceChar (s.dropWhile isSpaceChar)

theorem head_dropWhile_not (p : Char → Bool) (l : Str) :
    ∀ c cs, l.dropWhile p = c :: cs → p c = false := by
  induction l with
  | nil => intro c cs h; simp at h
  | cons a l ih =>
    intro c cs h
    rw [List.dropWhile_cons] at h
    by_cases ha : p a = true
    · rw [if_pos ha] at h; exact ih c cs h
    · rw [if_neg ha] at h
      cases h
      simpa using ha

theorem strip_head_not (s : Str) :
    strip s = [] ∨ ∃ c cs, strip s = c :: cs ∧ isSpaceChar c = false := by
  obtain ⟨w, hdec, _⟩ := strip_decomp s
  cases hs : strip s with
  | nil => exact Or.inl rfl
  | cons c cs =>
    refine Or.inr ⟨c, cs, rfl, ?_⟩
    rw [hs] at hdec
    exact head_dropWhile_not isSpaceChar s c (cs ++ w) (by simpa using hdec)

theorem dropWhile_eq_self_of_head (p : Char → Bool) (l : Str)
    (h : l = [] ∨ ∃ c cs, l = c :: cs ∧ p c = false) :
    l.dropWhile p = l := by
  rcases h with h | ⟨c, cs, rfl, hc⟩
  · subst h; rfl
  · simp [List.dropWhile_cons, hc]

theorem strip_idem (s : Str) : strip (strip s) = strip s := by
  have h1 : (strip s).dropWhile isSpaceChar = strip s :=
    dropWhile_eq_self_of_head _ _ (strip_head_not s)
  show (((strip s).dropWhile isSpaceChar).reverse.dropWhile isSpaceChar).reverse
      = strip s
  rw [h1]
  show ((((s.dropWhile isSpaceChar).reverse.dropWhile
      isSpaceChar).reverse).reverse.dropWhile isSpaceChar).reverse = _
  rw [List.reverse_reverse, dropWhile_idem]
  rfl

theorem strip_eq_self_of_nonspace (t : Str)
    (h : ∀ c ∈ t, isSpaceChar c = false) : strip t = t := by
  have h1 : t.dropWhile isSpaceChar = t := by
    cases t with
    | nil => rfl
    | cons a l => simp [List.dropWhile_cons, h a (by simp)]
  have h2 : t.reverse.dropWhile isSpaceChar = t.reverse := by
    cases hr : t.reverse with
    | nil => rfl
    | cons a l =>
      have ha : a ∈ t := by rw [← List.mem_reverse, hr]; simp
      rw [List.dropWhile_cons]
      simp [h a ha]
  show ((t.dropWhile isSpaceChar).reverse.dropWhile isSpaceChar).reverse = t
  rw [h1, h2, List.reverse_reverse]

/-! ### Lemmas about the tokenizer -/

theorem pyTokens_nil : pyTokens [] = [] := rfl

theorem pyTokens_cons_space (c : Char) (cs : Str) (h : isSpaceChar c = true) :
    pyTokens (c :: cs) = pyTokens cs := by
  show pyTokensAux (c :: cs) [] = pyTokensAux cs []
  rw [pyTokensAux, if_pos h]
  rfl

theorem pyTokensAux_acc (cs : Str) :
    ∀ acc : Str, acc ≠ [] →
      pyTokensAux cs acc =
        (acc.reverse ++ cs.takeWhile (fun d => !isSpaceChar d)) ::
          pyTokens (cs.dropWhile (fun d => !isSpaceChar d)) := by
  induction cs with
  | nil =>
    intro acc hne
    rw [pyTokensAux, if_neg (by simpa using hne)]
    simp [pyTokens, pyTokensAux]
  | cons c cs ih =>
    intro acc hne
    by_cases h : isSpaceChar c = true
    · rw [pyTokensAux, if_pos h, if_neg (by simpa using hne)]
      rw [List.takeWhile_cons, List.dropWhile_cons]
      rw [if_neg (by simp [h]), if_neg (by simp [h])]
      rw [List.append_nil, pyTokens_cons_space c cs h]
      rfl
    · rw [pyTokensAux, if_neg h]
      rw [ih (c :: acc) (by simp)]
      rw [List.takeWhile_cons, List.dropWhile_cons]
      rw [if_pos (by simp [h]), if_pos (by simp [h])]
      rw [List.reverse_cons, List.append_assoc]
      rfl

theorem pyTokens_cons_nonspace (c : Char) (cs : Str)
    (h : isSpaceChar c = false) :
    pyTokens (c :: cs) =
      (c :: cs.takeWhile (fun d => !isSpaceChar d)) ::
        pyTokens (cs.dropWhile (fun d => !isSpaceChar d)) := by
  show pyTokensAux (c :: cs) [] = _
  rw [pyTokensAux, if_neg (by simp [h])]
  rw [pyTokensAux_acc cs [c] (by simp)]
  rfl

theorem pyTokens_tokens_nonspace :
    ∀ (n : Nat) (s : Str), s.length ≤ n →
      ∀ t ∈ pyTokens s, t ≠ [] ∧ ∀ c ∈ t, isSpaceChar c = false := by
  intro n
  induction n with
  | zero =>
    intro s hs t ht
    rw [List.length_eq_zero.mp (Nat.le_zero.mp hs)] at ht
    simp [pyTokens_nil] at ht
  | succ n ih =>
    intro s hs t ht
    match s with
    | [] => simp [pyTokens_nil] at ht
    | c :: cs =>
      by_cases hc : isSpaceChar c = true
      · rw [pyTokens_cons_space c cs hc] at ht
        exact ih cs (by simpa using Nat.le_of_succ_le_succ hs) t ht
      · rw [pyTokens_cons_nonspace c cs (by simpa using hc)] at ht
        rcases List.mem_cons.mp ht with rfl | ht
        · refine ⟨by simp, ?_⟩
          intro x hx
          rcases List.mem_cons.mp hx with rfl | hx
          · simpa using hc
          · have := List.mem_takeWhile_imp hx
            simpa using this
        · refine ih (cs.dropWhile (fun d => !isSpaceChar d)) ?_ t ht
          exact Nat.le_trans (dropWhile_length_le _ cs)
            (by simpa using Nat.le_of_succ_le_succ hs)

theorem pyTokens_dropWhile (s : Str) :
    pyTokens (s.dropWhile isSpaceChar) = pyTokens s := by
  induction s with
  | nil => rfl
  | cons c cs ih =>
    by_cases h : isSpaceChar c = true
    · rw [List.dropWhile_cons, if_pos h, ih, pyTokens_cons_space c cs h]
    · rw [List.dropWhile_cons, if_neg h]

theorem pyTokens_all_space (w : Str)
    (h : ∀ c ∈ w, isSpaceChar c = true) : pyTokens w = [] := by
  induction w with
  | nil => exact pyTokens_nil
  | cons c cs ih =>
    rw [pyTokens_cons_space c cs (h c (by simp))]
    exact ih fun x hx => h x (by simp [hx])

theorem takeWhile_append_of_all {α : Type} (p : α → Bool) (l₁ l₂ : List α)
    (h : ∀ a ∈ l₁, p a = true) :
    (l₁ ++ l₂).takeWhile p = l₁ ++ l₂.takeWhile p := by
  induction l₁ with
  | nil => simp
  | cons a l ih =>
    have ha : p a = true := h a (by simp)
    rw [List.cons_append, List.takeWhile_cons, if_pos ha,
      ih fun x hx => h x (by simp [hx]), List.cons_append]

theorem dropWhile_append_of_all {α : Type} (p : α → Bool) (l₁ l₂ : List α)
    (h : ∀ a ∈ l₁, p a = true) :
    (l₁ ++ l₂).dropWhile p = l₂.dropWhile p := by
  induction l₁ with
  | nil => simp
  | cons a l ih =>
    have ha : p a = true := h a (by simp)
    rw [List.cons_append, List.dropWhile_cons, if_pos ha]
    exact ih fun x hx => h x (by simp [hx])

theorem takeWhile_append_of_stop {α : Type} (p : α → Bool) (l₁ l₂ : List α)
    (h : l₁.dropWhile p ≠ []) :
    (l₁ ++ l₂).takeWhile p = l₁.takeWhile p := by
  induction l₁ with
  | nil => simp at h
  | cons a l ih =>
    by_cases ha : p a = true
    · rw [List.dropWhile_cons, if_pos ha] at h
      simp only [List.cons_append, List.takeWhile_cons, ha, if_pos]
      rw [ih h]
    · simp [List.takeWhile_cons, ha]

theorem dropWhile_append_of_stop {α : Type} (p : α → Bool) (l₁ l₂ : List α)
    (h : l₁.dropWhile p ≠ []) :
    (l₁ ++ l₂).dropWhile p = l₁.dropWhile p ++ l₂ := by
  induction l₁ with
  | nil => simp at h
  | cons a l ih =>
    by_cases ha : p a = true
    · rw [List.dropWhile_cons, if_pos ha] at h
      simp only [List.cons_append, List.dropWhile_cons, ha, if_pos]
      exact ih h
    · simp [List.dropWhile_cons, ha]

theorem pyTokens_append_space :
    ∀ (n : Nat) (s w : Str), s.length ≤ n →
      (∀ c ∈ w, isSpaceChar c = true) → pyTokens (s ++ w) = pyTokens s := by
  intro n
  induction n with
  | zero =>
    intro s w hs hw
    rw [List.length_eq_zero.mp (Nat.le_zero.mp hs)]
    simpa [pyTokens_nil] using pyTokens_all_space w hw
  | succ n ih =>
    intro s w hs hw
    match s with
    | [] => simpa [pyTokens_nil] using pyTokens_all_space w hw
    | c :: cs =>
      by_cases hc : isSpaceChar c = true
      · rw [List.cons_append, pyTokens_cons_space c _ hc,
          pyTokens_cons_space c cs hc]
        exact ih cs w (by simpa using Nat.le_of_succ_le_succ hs) hw
      · rw [List.cons_append, pyTokens_cons_nonspace c _ (by simpa using hc),
          pyTokens_cons_nonspace c cs (by simpa using hc)]
        by_cases hd : cs.dropWhile (fun d => !isSpaceChar d) = []
        · have htcs : cs.takeWhile (fun d => !isSpaceChar d) = cs := by
            have h2 := List.takeWhile_append_dropWhile
              (p := fun d => !isSpaceChar d) (l := cs)
            rwa [hd, List.append_nil] at h2
          have hall : ∀ a ∈ cs, (fun d => !isSpaceChar d) a = true := by
            intro a ha
            have ha2 : a ∈ cs.takeWhile (fun d => !isSpaceChar d) := by
              rwa [htcs]
            exact List.mem_takeWhile_imp (p := fun d => !isSpaceChar d) ha2
          have htw : w.takeWhile (fun d => !isSpaceChar d) = [] := by
            cases w with
            | nil => rfl
            | cons d ds =>
              simp [List.takeWhile_cons, hw d (by simp)]
          have hdw : w.dropWhile (fun d => !isSpaceChar d) = w := by
            cases w with
            | nil => rfl
            | cons d ds =>
              simp [List.dropWhile_cons, hw d (by simp)]
          rw [takeWhile_append_of_all _ cs w hall,
            dropWhile_append_of_all _ cs w hall, htw, hdw, hd, htcs,
            List.append_nil, pyTokens_all_space w hw, pyTokens_nil]
        · rw [takeWhile_append_of_stop _ cs w hd,
            dropWhile_append_of_stop _ cs w hd]
          have hlen : (cs.dropWhile (fun d => !isSpaceChar d)).length ≤ n :=
            Nat.le_trans (dropWhile_length_le _ cs)
              (by simpa using Nat.le_of_succ_le_succ hs)
          rw [ih _ w hlen hw]

theorem pyTokens_strip (s : Str) : pyTokens (strip s) = pyTokens s := by
  obtain ⟨w, hdec, hw⟩ := strip_decomp s
  have h1 := pyTokens_dropWhile s
  rw [hdec, pyTokens_append_space (strip s).length (strip s) w
    (Nat.le_refl _) hw] at h1
  exact h1

theorem guardrails_word_count (chapterLength content : Str) :
    (reviewGuardrails chapterLength content).2.1 = (pyTokens content).length := by
  show ((pyTokens (strip content)).filter
      (fun t => !(strip t).isEmpty)).length = _
  rw [pyTokens_strip]
  congr 1
  rw [List.filter_eq_self]
  intro t ht
  obtain ⟨hne, hns⟩ :=
    pyTokens_tokens_nonspace content.length content (Nat.le_refl _) t ht
  rw [strip_eq_self_of_nonspace t hns]
  simpa using hne

/-! ### Lemmas about score normalization and the review transition -/

theorem clamp0100_bounds (n : ℤ) : 0 ≤ clamp0100 n ∧ clamp0100 n ≤ 100 := by
  unfold clamp0100
  exact ⟨le_max_left 0 _, max_le (by norm_num) (min_le_left 100 n)⟩

theorem clamp0100_of_bounds {n : ℤ} (h0 : 0 ≤ n) (h1 : n ≤ 100) :
    clamp0100 n = n := by
  unfold clamp0100
  rw [min_eq_right h1, max_eq_right h0]

theorem clamp0100_idem (n : ℤ) : clamp0100 (clamp0100 n) = clamp0100 n :=
  clamp0100_of_bounds (clamp0100_bounds n).1 (clamp0100_bounds n).2

theorem parseScore_bounds (v : ScoreVal) :
    0 ≤ parseScore v ∧ parseScore v ≤ 100 := by
  cases v with
  | num q => exact clamp0100_bounds _
  | nan => exact ⟨le_refl 0, by decide⟩

theorem clamp_parseScore (v : ScoreVal) :
    clamp0100 (parseScore v) = parseScore v := by
  cases v with
  | num q => exact clamp0100_idem _
  | nan => decide

theorem chapterRouteReview_reviewCore (cl : Str) (p : ReviewObj)
    (content : Str) (rc mr : Nat) :
    chapterRouteReview (chapterNodeReviewCore cl p content) rc mr
        = Route.revise ↔
      ((chapterNodeReviewCore cl p content).effective_should_revise = true
        ∧ rc < mr) := by
  have hclamp : clamp0100 (chapterNodeReviewCore cl p content).score
      = (chapterNodeReviewCore cl p content).score := clamp_parseScore p.score
  cases heff : (chapterNodeReviewCore cl p content).effective_should_revise with
  | true =>
    by_cases hrc : rc < mr
    · simp [chapterRouteReview, heff, hrc]
    · simp [chapterRouteReview, heff, hrc]
  | false =>
    have hfalse : ((chapterNodeReviewCore cl p content).should_revise
        || decide ((chapterNodeReviewCore cl p content).score < 80)
        || (chapterNodeReviewCore cl p content).guardrail_fail) = false := heff
    simp [chapterRouteReview, heff, hclamp, hfalse]

theorem reviewCore_critique_of_effective (cl : Str) (p : ReviewObj)
    (content : Str)
    (h : (chapterNodeReviewCore cl p content).effective_should_revise = true) :
    strip (chapterNodeReviewCore cl p content).critique ≠ [] := by
  have hc : (chapterNodeReviewCore cl p content).critique
      = (if (chapterNodeReviewCore cl p content).effective_should_revise
            && (strip p.critique).isEmpty
         then defaultCritique else strip p.critique) := rfl
  rw [hc, h]
  by_cases h0 : (strip p.critique).isEmpty = true
  · rw [if_pos (by simp [h0])]
    decide
  · rw [if_neg (by simp [h0])]
    rw [strip_idem]
    intro hnil
    exact h0 (by rw [hnil]; rfl)

/-- Claim C1: the review node stores
`effective_should_revise = should_revise OR score < 80 OR guardrail_fail`, and
the transition out of review is `revise` exactly when
`effective_should_revise` holds and `revision_count < max_revisions`, else
`persist`; in particular a guardrail failure alone (explicit
`should_revise = false`, raw score 95) forces the flag, and an explicit
`should_revise = true` forces it at any score with any guardrail outcome. -/
theorem review_effective_revise_decision (cl : Str) (p : ReviewObj)
    (content : Str) (rc mr : Nat) :
    ((chapterNodeReviewCore cl p content).effective_should_revise
      = ((chapterNodeReviewCore cl p content).should_revise
         || decide ((chapterNodeReviewCore cl p content).score < 80)
         || (chapterNodeReviewCore cl p content).guardrail_fail))
    ∧ (chapterRouteReview (chapterNodeReviewCore cl p content) rc mr
          = Route.revise
        ↔ ((chapterNodeReviewCore cl p content).effective_should_revise = true
            ∧ rc < mr))
    ∧ (chapterRouteReview (chapterNodeReviewCore cl p content) rc mr
          = Route.persist
        ↔ ¬((chapterNodeReviewCore cl p content).effective_should_revise = true
            ∧ rc < mr))
    ∧ (p.should_revise = false → p.score = ScoreVal.num 95 →
        (chapterNodeReviewCore cl p content).guardrail_fail = true →
        (chapterNodeReviewCore cl p content).effective_should_revise = true)
    ∧ (p.should_revise = true →
        (chapterNodeReviewCore cl p content).effective_should_revise = true) := by
  have hdef : (chapterNodeReviewCore cl p content).effective_should_revise
      = (p.should_revise
         || decide (parseScore p.score < 80)
         || (chapterNodeReviewCore cl p content).guardrail_fail) := rfl
  have hroute := chapterRouteReview_reviewCore cl p content rc mr
  refine ⟨rfl, hroute, ?_, ?_, ?_⟩
  · have hcases : ∀ x : Route, x = Route.persist ↔ ¬(x = Route.revise) := by
      intro x; cases x <;> simp
    rw [hcases, hroute]
  · intro _ _ hgf
    rw [hdef, hgf]
    simp
  · intro hsr
    rw [hdef, hsr]
    simp

/-- Claim C10: the score stored on the review result is an integer clamped
into `[0, 100]` — values above 100 clamp to 100, values below 0 clamp to 0,
fractional values in range truncate (floor), and an unparseable value becomes
0, which triggers the `score < 80` revision condition — and the transition
predicate re-applies the same clamp to the stored score, which leaves it
unchanged. -/
theorem review_score_clamping (v : ScoreVal) (q : ℚ) (cl content : Str)
    (p : ReviewObj) :
    (0 ≤ parseScore v ∧ parseScore v ≤ 100)
    ∧ (100 < q → parseScore (ScoreVal.num q) = 100)
    ∧ (q < 0 → parseScore (ScoreVal.num q) = 0)
    ∧ (0 ≤ q → q ≤ 100 → parseScore (ScoreVal.num q) = ⌊q⌋)
    ∧ parseScore ScoreVal.nan = 0
    ∧ parseScore ScoreVal.nan < 80
    ∧ (p.score = ScoreVal.nan →
        (chapterNodeReviewCore cl p content).effective_should_revise = true)
    ∧ (chapterNodeReviewCore cl p content).score = parseScore p.score
    ∧ clamp0100 (chapterNodeReviewCore cl p content).score
        = (chapterNodeReviewCore cl p content).score := by
  refine ⟨parseScore_bounds v, ?_, ?_, ?_, rfl, by decide, ?_, rfl,
    clamp_parseScore p.score⟩
  · intro h
    have h0 : (0 : ℚ) ≤ q := le_of_lt (lt_trans (by norm_num) h)
    have h100 : (100 : ℤ) ≤ ⌊q⌋ := Int.le_floor.mpr (by push_cast; linarith)
    show clamp0100 (truncToward0 q) = 100
    unfold truncToward0
    rw [if_pos h0]
    unfold clamp0100
    rw [min_eq_left h100]
    norm_num
  · intro h
    have h0 : ¬(0 : ℚ) ≤ q := not_le.mpr h
    have hc : ⌈q⌉ ≤ 0 := Int.ceil_le.mpr (by push_cast; linarith)
    show clamp0100 (truncToward0 q) = 0
    unfold truncToward0
    rw [if_neg h0]
    unfold clamp0100
    rw [min_eq_right (le_trans hc (by norm_num)), max_eq_left hc]
  · intro h0 h100
    show clamp0100 (truncToward0 q) = ⌊q⌋
    unfold truncToward0
    rw [if_pos h0]
    have hf0 : 0 ≤ ⌊q⌋ := Int.floor_nonneg.mpr h0
    have hf100 : ⌊q⌋ ≤ 100 := by
      have := Int.floor_mono h100
      rwa [show ((100 : ℚ)) = ((100 : ℤ) : ℚ) by norm_num,
        Int.floor_intCast] at this
    exact clamp0100_of_bounds hf0 hf100
  · intro hnan
    have hdef : (chapterNodeReviewCore cl p content).effective_should_revise
        = (p.should_revise
           || decide (parseScore p.score < 80)
           || (chapterNodeReviewCore cl p content).guardrail_fail) := rfl
    rw [hdef, hnan]
    have hdec : decide (parseScore ScoreVal.nan < 80) = true := by decide
    rw [hdec]
    simp

/-- Claim C4: a draft node execution increments `revision_count` by exactly 1
iff a non-empty (after stripping) critique from the prior review was supplied;
the first draft (no prior review result) leaves it unchanged, and a draft
after a review with a non-empty stripped critique increments it. -/
theorem draft_revision_increment (env : ProviderEnv) (k : Nat)
    (st : LoopState) :
    ((draftStep env k st).revision_count =
      (if (critiqueOfReviewResult st.review_result).isEmpty
       then st.revision_count else st.revision_count + 1))
    ∧ (st.review_result = none →
        (draftStep env k st).revision_count = st.revision_count)
    ∧ (∀ r, st.review_result = some r → strip r.critique ≠ [] →
        (draftStep env k st).revision_count = st.revision_count + 1)
    ∧ ((draftStep env k st).revision_count = st.revision_count + 1
        ↔ critiqueOfReviewResult st.review_result ≠ []) := by
  have hrc : (draftStep env k st).revision_count =
      (if (critiqueOfReviewResult st.review_result).isEmpty
       then st.revision_count else st.revision_count + 1) := rfl
  refine ⟨hrc, ?_, ?_, ?_⟩
  · intro hnone
    rw [hrc, hnone]
    rfl
  · intro r hsome hne
    rw [hrc, hsome]
    show (if (strip r.critique).isEmpty then _ else _) = _
    rw [if_neg (by simpa using hne)]
  · rw [hrc]
    by_cases he : (critiqueOfReviewResult st.review_result).isEmpty = true
    · rw [if_pos he]
      simp [List.isEmpty_iff.mp he]
    · rw [if_neg he]
      simp only [eq_self_iff_true, true_iff]
      intro hnil
      exact he (by rw [hnil]; rfl)

/-- Claim C5: the guardrail evaluator returns the whitespace-token count of
the content, the minimum word count 900/1800/3000 for the `short`, `medium`,
`long` chapter-length preferences and 1200 when unspecified, and exactly the
issues whose condition holds, in the fixed order empty-content, missing
heading, word count below minimum; being a total function it never raises. -/
theorem guardrail_evaluator_spec (chapterLength content : Str) :
    (reviewGuardrails chapterLength content).2.1 = (pyTokens content).length
    ∧ minimumWordCountForProject "short".toList = 900
    ∧ minimumWordCountForProject "medium".toList = 1800
    ∧ minimumWordCountForProject "long".toList = 3000
    ∧ minimumWordCountForProject [] = 1200
    ∧ (reviewGuardrails chapterLength content).2.2
        = minimumWordCountForProject chapterLength
    ∧ (reviewGuardrails chapterLength content).1 =
        (if (strip content).isEmpty then [emptyIssue] else []) ++
        (if !containsSub headingMarker (strip content) then [headingIssue]
         else []) ++
        (if (reviewGuardrails chapterLength content).2.1 <
            (reviewGuardrails chapterLength content).2.2 then
          [belowMinimumIssue (reviewGuardrails chapterLength content).2.1
            (reviewGuardrails chapterLength content).2.2]
         else []) :=
  ⟨guardrails_word_count chapterLength content, by decide, by decide,
    by decide, by decide, rfl, rfl⟩

/-! ### Lemmas about the draft/review loop -/

theorem chapterLoop_zero (env : ProviderEnv) (mr k : Nat) (st : LoopState) :
    chapterLoop env mr 0 k st = none := rfl

theorem chapterLoop_succ (env : ProviderEnv) (mr fuel k : Nat)
    (st : LoopState) :
    chapterLoop env mr (fuel + 1) k st =
      if chapterRouteReviewState (reviewStep env k (draftStep env k st)) mr
          = Route.revise then
        match chapterLoop env mr fuel (k + 1)
            (reviewStep env k (draftStep env k st)) with
        | none => none
        | some (stF, n, tr) =>
          some (stF, n, (draftStep env k st).revision_count ::
            (reviewStep env k (draftStep env k st)).revision_count :: tr)
      else
        some (reviewStep env k (draftStep env k st), k + 1,
          [(draftStep env k st).revision_count,
            (reviewStep env k (draftStep env k st)).revision_count]) := rfl

theorem draftStep_rc_of_empty (env : ProviderEnv) (k : Nat) (st : LoopState)
    (h : critiqueOfReviewResult st.review_result = []) :
    (draftStep env k st).revision_count = st.revision_count := by
  show (if (critiqueOfReviewResult st.review_result).isEmpty then _ else _) = _
  rw [h]
  rfl

theorem draftStep_rc_of_nonempty (env : ProviderEnv) (k : Nat) (st : LoopState)
    (h : critiqueOfReviewResult st.review_result ≠ []) :
    (draftStep env k st).revision_count = st.revision_count + 1 := by
  show (if (critiqueOfReviewResult st.review_result).isEmpty then _ else _) = _
  rw [if_neg (by simpa using h)]

theorem draftStep_rc_le (env : ProviderEnv) (k : Nat) (st : LoopState) :
    st.revision_count ≤ (draftStep env k st).revision_count := by
  by_cases h : critiqueOfReviewResult st.review_result = []
  · rw [draftStep_rc_of_empty env k st h]
  · rw [draftStep_rc_of_nonempty env k st h]
    exact Nat.le_succ _

theorem reviewStep_rc (env : ProviderEnv) (k : Nat) (st : LoopState) :
    (reviewStep env k st).revision_count = st.revision_count := rfl

theorem iter_review_result (env : ProviderEnv) (k : Nat) (st : LoopState) :
    (reviewStep env k (draftStep env k st)).review_result
      = some (reviewAt env k) := rfl

theorem critique_iter (env : ProviderEnv) (k : Nat) (st : LoopState) :
    critiqueOfReviewResult
        (reviewStep env k (draftStep env k st)).review_result
      = strip (reviewAt env k).critique := rfl

theorem iter_fallback (env : ProviderEnv) (k : Nat) (st : LoopState) :
    (reviewStep env k (draftStep env k st)).fallback_stages
      = mergeFallbackStages
          (mergeFallbackStages st.fallback_stages (env.draft k).fb)
          (env.review k).fb := rfl

theorem route_iter_iff (env : ProviderEnv) (mr k : Nat) (st : LoopState) :
    chapterRouteReviewState (reviewStep env k (draftStep env k st)) mr
        = Route.revise
      ↔ ((reviewAt env k).effective_should_revise = true
          ∧ (draftStep env k st).revision_count < mr) :=
  chapterRouteReview_reviewCore env.chapterLength (env.review k).review
    (strip (env.draft k).content) (draftStep env k st).revision_count mr

theorem reviewAt_critique_of_effective (env : ProviderEnv) (k : Nat)
    (h : (reviewAt env k).effective_should_revise = true) :
    strip (reviewAt env k).critique ≠ [] :=
  reviewCore_critique_of_effective env.chapterLength (env.review k).review
    (strip (env.draft k).content) h

theorem chapterLoop_total (env : ProviderEnv) (mr : Nat) :
    ∀ (fuel k : Nat) (st : LoopState),
      (if critiqueOfReviewResult st.review_result = []
       then mr + 1 - st.revision_count else mr - st.revision_count) ≤ fuel →
      (chapterLoop env mr (fuel + 1) k st).isSome := by
  intro fuel
  induction fuel with
  | zero =>
    intro k st hb
    rw [chapterLoop_succ]
    by_cases hroute : chapterRouteReviewState
        (reviewStep env k (draftStep env k st)) mr = Route.revise
    · exfalso
      obtain ⟨heff, hrc⟩ := (route_iter_iff env mr k st).mp hroute
      by_cases hcr : critiqueOfReviewResult st.review_result = []
      · rw [if_pos hcr] at hb
        rw [draftStep_rc_of_empty env k st hcr] at hrc
        omega
      · rw [if_neg hcr] at hb
        rw [draftStep_rc_of_nonempty env k st hcr] at hrc
        omega
    · rw [if_neg hroute]
      rfl
  | succ fuel ih =>
    intro k st hb
    rw [chapterLoop_succ]
    by_cases hroute : chapterRouteReviewState
        (reviewStep env k (draftStep env k st)) mr = Route.revise
    · rw [if_pos hroute]
      obtain ⟨heff, hrc⟩ := (route_iter_iff env mr k st).mp hroute
      have hbound : (if critiqueOfReviewResult
            (reviewStep env k (draftStep env k st)).review_result = []
          then mr + 1 - (reviewStep env k (draftStep env k st)).revision_count
          else mr - (reviewStep env k (draftStep env k st)).revision_count)
          ≤ fuel := by
        rw [critique_iter env k st,
          if_neg (reviewAt_critique_of_effective env k heff)]
        rw [reviewStep_rc]
        by_cases hcr : critiqueOfReviewResult st.review_result = []
        · rw [if_pos hcr] at hb
          rw [draftStep_rc_of_empty env k st hcr] at hrc ⊢
          omega
        · rw [if_neg hcr] at hb
          rw [draftStep_rc_of_nonempty env k st hcr] at hrc ⊢
          omega
      have hsome := ih (k + 1) (reviewStep env k (draftStep env k st)) hbound
      cases hrec : chapterLoop env mr (fuel + 1) (k + 1)
          (reviewStep env k (draftStep env k st)) with
      | none => rw [hrec] at hsome; simp at hsome
      | some v =>
        obtain ⟨stF, n, tr⟩ := v
        rfl
    · rw [if_neg hroute]
      rfl

theorem chapterLoop_fuel_mono (env : ProviderEnv) (mr : Nat) :
    ∀ (fuel k : Nat) (st : LoopState) (r : LoopState × Nat × List Nat),
      chapterLoop env mr fuel k st = some r →
      chapterLoop env mr (fuel + 1) k st = some r := by
  intro fuel
  induction fuel with
  | zero =>
    intro k st r h
    rw [chapterLoop_zero] at h
    exact absurd h (by simp)
  | succ fuel ih =>
    intro k st r h
    rw [chapterLoop_succ] at h
    rw [chapterLoop_succ]
    by_cases hroute : chapterRouteReviewState
        (reviewStep env k (draftStep env k st)) mr = Route.revise
    · rw [if_pos hroute] at h ⊢
      cases hrec : chapterLoop env mr fuel (k + 1)
          (reviewStep env k (draftStep env k st)) with
      | none => rw [hrec] at h; simp at h
      | some v =>
        rw [hrec] at h
        rw [ih (k + 1) (reviewStep env k (draftStep env k st)) v hrec]
        exact h
    · rw [if_neg hroute] at h ⊢
      exact h

theorem stageSeqFrom_zero (env : ProviderEnv) (k : Nat) :
    stageSeqFrom env k 0 = [] := rfl

theorem stageSeqFrom_succ (env : ProviderEnv) (k m : Nat) :
    stageSeqFrom env k (m + 1) =
      (env.draft k).fb :: (env.review k).fb :: stageSeqFrom env (k + 1) m := rfl

theorem chapterLoop_sound (env : ProviderEnv) (mr : Nat) :
    ∀ (fuel k : Nat) (st stF : LoopState) (n : Nat) (tr : List Nat),
      chapterLoop env mr fuel k st = some (stF, n, tr) →
      st.revision_count ≤ mr →
      (critiqueOfReviewResult st.review_result ≠ [] →
        st.revision_count < mr) →
      (k < n
        ∧ n ≤ k + (if critiqueOfReviewResult st.review_result = []
                   then mr + 1 - st.revision_count
                   else mr - st.revision_count))
      ∧ (List.Chain' (· ≤ ·) (st.revision_count :: tr)
         ∧ (∀ x ∈ tr, x ≤ mr)
         ∧ tr.getLast? = some stF.revision_count
         ∧ stF.revision_count ≤ mr)
      ∧ stF.fallback_stages =
          (stageSeqFrom env k (n - k)).foldl mergeFallbackStages
            st.fallback_stages := by
  intro fuel
  induction fuel with
  | zero =>
    intro k st stF n tr h _ _
    rw [chapterLoop_zero] at h
    exact absurd h (by simp)
  | succ fuel ih =>
    intro k st stF n tr h hle hinv
    rw [chapterLoop_succ] at h
    by_cases hroute : chapterRouteReviewState
        (reviewStep env k (draftStep env k st)) mr = Route.revise
    · rw [if_pos hroute] at h
      obtain ⟨heff, hrcD⟩ := (route_iter_iff env mr k st).mp hroute
      cases hrec : chapterLoop env mr fuel (k + 1)
          (reviewStep env k (draftStep env k st)) with
      | none => rw [hrec] at h; simp at h
      | some v =>
        obtain ⟨stF', n', tr'⟩ := v
        rw [hrec] at h
        simp only [Option.some.injEq, Prod.mk.injEq] at h
        obtain ⟨rfl, rfl, rfl⟩ := h
        have hcritR : critiqueOfReviewResult
            (reviewStep env k (draftStep env k st)).review_result ≠ [] := by
          rw [critique_iter]
          exact reviewAt_critique_of_effective env k heff
        have hleR : (reviewStep env k (draftStep env k st)).revision_count
            ≤ mr := by
          rw [reviewStep_rc]
          omega
        obtain ⟨⟨hkn, hbound⟩, ⟨hchain, hmem, hlast, hFle⟩, hfb⟩ :=
          ih (k + 1) (reviewStep env k (draftStep env k st)) stF' n' tr' hrec
            hleR (fun _ => by rw [reviewStep_rc]; exact hrcD)
        rw [if_neg hcritR, reviewStep_rc] at hbound
        refine ⟨⟨by omega, ?_⟩, ⟨?_, ?_, ?_, hFle⟩, ?_⟩
        · by_cases hcr : critiqueOfReviewResult st.review_result = []
          · rw [if_pos hcr]
            rw [draftStep_rc_of_empty env k st hcr] at hrcD hbound
            omega
          · rw [if_neg hcr]
            rw [draftStep_rc_of_nonempty env k st hcr] at hrcD hbound
            omega
        · rw [List.chain'_cons]
          refine ⟨draftStep_rc_le env k st, ?_⟩
          rw [List.chain'_cons]
          exact ⟨le_of_eq (reviewStep_rc env k (draftStep env k st)).symm,
            hchain⟩
        · intro x hx
          rcases List.mem_cons.mp hx with rfl | hx
          · exact le_of_lt hrcD
          rcases List.mem_cons.mp hx with rfl | hx
          · rw [reviewStep_rc]
            exact le_of_lt hrcD
          · exact hmem x hx
        · cases htr' : tr' with
          | nil => rw [htr'] at hlast; simp at hlast
          | cons a l =>
            rw [htr'] at hlast
            rw [List.getLast?_cons_cons, List.getLast?_cons_cons]
            exact hlast
        · rw [iter_fallback] at hfb
          have hnk : n' - k = (n' - (k + 1)) + 1 := by omega
          rw [hnk, stageSeqFrom_succ, List.foldl_cons, List.foldl_cons]
          exact hfb
    · rw [if_neg hroute] at h
      simp only [Option.some.injEq, Prod.mk.injEq] at h
      obtain ⟨rfl, rfl, rfl⟩ := h
      have hDle : (draftStep env k st).revision_count ≤ mr := by
        by_cases hcr : critiqueOfReviewResult st.review_result = []
        · rw [draftStep_rc_of_empty env k st hcr]
          exact hle
        · rw [draftStep_rc_of_nonempty env k st hcr]
          exact hinv hcr
      refine ⟨⟨by omega, ?_⟩, ⟨?_, ?_, ?_, ?_⟩, ?_⟩
      · by_cases hcr : critiqueOfReviewResult st.review_result = []
        · rw [if_pos hcr]
          omega
        · rw [if_neg hcr]
          have := hinv hcr
          omega
      · rw [List.chain'_cons]
        refine ⟨draftStep_rc_le env k st, ?_⟩
        rw [List.chain'_cons]
        exact ⟨le_of_eq (reviewStep_rc env k (draftStep env k st)).symm,
          List.chain'_singleton _⟩
      · intro x hx
        rcases List.mem_cons.mp hx with rfl | hx
        · exact hDle
        rcases List.mem_cons.mp hx with rfl | hx
        · rw [reviewStep_rc]
          exact hDle
        · simp at hx
      · rfl
      · rw [reviewStep_rc]
        exact hDle
      · have hnk : k + 1 - k = 1 := by omega
        rw [hnk, stageSeqFrom_succ, stageSeqFrom_zero, List.foldl_cons,
          List.foldl_cons]
        exact iter_fallback env k st

theorem chapterLoop_count_exact (env : ProviderEnv) (mr : Nat)
    (htrig : allReviewsTriggerRevision env) :
    ∀ (fuel k : Nat) (st stF : LoopState) (n : Nat) (tr : List Nat),
      chapterLoop env mr fuel k st = some (stF, n, tr) →
      st.revision_count ≤ mr →
      (critiqueOfReviewResult st.review_result ≠ [] →
        st.revision_count < mr) →
      n = k + (if critiqueOfReviewResult st.review_result = []
               then mr + 1 - st.revision_count
               else mr - st.revision_count) := by
  intro fuel
  induction fuel with
  | zero =>
    intro k st stF n tr h _ _
    rw [chapterLoop_zero] at h
    exact absurd h (by simp)
  | succ fuel ih =>
    intro k st stF n tr h hle hinv
    rw [chapterLoop_succ] at h
    by_cases hroute : chapterRouteReviewState
        (reviewStep env k (draftStep env k st)) mr = Route.revise
    · rw [if_pos hroute] at h
      obtain ⟨heff, hrcD⟩ := (route_iter_iff env mr k st).mp hroute
      cases hrec : chapterLoop env mr fuel (k + 1)
          (reviewStep env k (draftStep env k st)) with
      | none => rw [hrec] at h; simp at h
      | some v =>
        obtain ⟨stF', n', tr'⟩ := v
        rw [hrec] at h
        simp only [Option.some.injEq, Prod.mk.injEq] at h
        obtain ⟨rfl, rfl, rfl⟩ := h
        have hcritR : critiqueOfReviewResult
            (reviewStep env k (draftStep env k st)).review_result ≠ [] := by
          rw [critique_iter]
          exact reviewAt_critique_of_effective env k heff
        have hcount := ih (k + 1) (reviewStep env k (draftStep env k st))
          stF' n' tr' hrec (by rw [reviewStep_rc]; omega)
          (fun _ => by rw [reviewStep_rc]; exact hrcD)
        rw [if_neg hcritR, reviewStep_rc] at hcount
        by_cases hcr : critiqueOfReviewResult st.review_result = []
        · rw [if_pos hcr]
          rw [draftStep_rc_of_empty env k st hcr] at hrcD hcount
          omega
        · rw [if_neg hcr]
          rw [draftStep_rc_of_nonempty env k st hcr] at hrcD hcount
          omega
    · rw [if_neg hroute] at h
      simp only [Option.some.injEq, Prod.mk.injEq] at h
      obtain ⟨rfl, rfl, rfl⟩ := h
      have heff := htrig k
      have hrcD : ¬(draftStep env k st).revision_count < mr := by
        intro hlt
        exact hroute ((route_iter_iff env mr k st).mpr ⟨heff, hlt⟩)
      by_cases hcr : critiqueOfReviewResult st.review_result = []
      · rw [if_pos hcr]
        rw [draftStep_rc_of_empty env k st hcr] at hrcD
        omega
      · rw [if_neg hcr]
        rw [draftStep_rc_of_nonempty env k st hcr] at hrcD
        have := hinv hcr
        omega

theorem runChapterGraph_inv (env : ProviderEnv) (mr : Nat)
    (o : ChapterOutcome) (h : runChapterGraph env mr = some o) :
    ∃ stF n tr,
      chapterLoop env mr (mr + 2) 0
          { revision_count := 0
            review_result := none
            chapter_draft := []
            fallback_stages := mergeFallbackStages [] env.plan_fb }
        = some (stF, n, tr)
      ∧ o = { final := stF
              draft_calls := n
              review_calls := n
              plan_calls := 1
              persist_calls := 1
              output_fallback_stages := stF.fallback_stages
              output_used_fallback := !stF.fallback_stages.isEmpty
              progress_revision_count := stF.revision_count
              rc_trace := 0 :: 0 :: tr ++ [stF.revision_count] } := by
  revert h
  unfold runChapterGraph
  cases hrec : chapterLoop env mr (mr + 2) 0
      { revision_count := 0
        review_result := none
        chapter_draft := []
        fallback_stages := mergeFallbackStages [] env.plan_fb } with
  | none => intro h; simp at h
  | some v =>
    obtain ⟨stF, n, tr⟩ := v
    intro h
    simp only [Option.some.injEq] at h
    exact ⟨stF, n, tr, rfl, h.symm⟩

theorem runChapterGraph_isSome (env : ProviderEnv) (mr : Nat) :
    (runChapterGraph env mr).isSome := by
  have htot : (chapterLoop env mr (mr + 2) 0
      { revision_count := 0
        review_result := none
        chapter_draft := []
        fallback_stages := mergeFallbackStages [] env.plan_fb }).isSome :=
    chapterLoop_total env mr (mr + 1) 0 _ (by
      have hcrit : critiqueOfReviewResult
          ({ revision_count := 0
             review_result := none
             chapter_draft := []
             fallback_stages := mergeFallbackStages [] env.plan_fb }
            : LoopState).review_result = [] := rfl
      rw [if_pos hcrit]
      omega)
  unfold runChapterGraph
  cases hrec : chapterLoop env mr (mr + 2) 0
      { revision_count := 0
        review_result := none
        chapter_draft := []
        fallback_stages := mergeFallbackStages [] env.plan_fb } with
  | none => rw [hrec] at htot; simp at htot
  | some v =>
    obtain ⟨stF, n, tr⟩ := v
    rfl

/-- Claim C2: in every chapter run `revision_count` starts at 0, never
decreases at any node completion, and stays within `[0, max_revisions]` at
every recorded node boundary and in the final output's progress record (being
a natural number, it is never negative). -/
theorem revision_count_invariant (env : ProviderEnv) (mr : Nat)
    (o : ChapterOutcome) (h : runChapterGraph env mr = some o) :
    o.rc_trace.head? = some 0
    ∧ List.Chain' (· ≤ ·) o.rc_trace
    ∧ (∀ x ∈ o.rc_trace, x ≤ mr)
    ∧ o.progress_revision_count ≤ mr := by
  obtain ⟨stF, n, tr, hrec, rfl⟩ := runChapterGraph_inv env mr o h
  obtain ⟨⟨hkn, hbound⟩, ⟨hchain, hmem, hlast, hFle⟩, hfb⟩ :=
    chapterLoop_sound env mr (mr + 2) 0 _ stF n tr hrec (Nat.zero_le mr)
      (fun hc => absurd rfl hc)
  have hchain0 : List.Chain' (· ≤ ·) ((0 : Nat) :: tr) := hchain
  have htail : List.Chain' (· ≤ ·) (tr ++ [stF.revision_count]) := by
    rw [List.chain'_append]
    refine ⟨(List.chain'_cons'.mp hchain0).2, List.chain'_singleton _, ?_⟩
    intro x hx y hy
    rw [hlast] at hx
    have hx2 : stF.revision_count = x := by simpa using hx
    have hy2 : stF.revision_count = y := by simpa using hy
    rw [← hx2, ← hy2]
  refine ⟨rfl, ?_, ?_, hFle⟩
  · show List.Chain' (· ≤ ·) (0 :: 0 :: (tr ++ [stF.revision_count]))
    rw [List.chain'_cons]
    refine ⟨Nat.le_refl 0, ?_⟩
    rw [List.chain'_cons']
    exact ⟨fun y _ => Nat.zero_le y, htail⟩
  · intro x hx
    have hx2 : x = 0 ∨ x ∈ tr ∨ x = stF.revision_count := by
      rcases List.mem_cons.mp hx with rfl | hx
      · exact Or.inl rfl
      rcases List.mem_cons.mp hx with rfl | hx
      · exact Or.inl rfl
      rcases List.mem_append.mp hx with hx | hx
      · exact Or.inr (Or.inl hx)
      · exact Or.inr (Or.inr (by simpa using hx))
    rcases hx2 with rfl | hx2 | rfl
    · exact Nat.zero_le mr
    · exact hmem x hx2
    · exact hFle

/-- Claim C2 witness: the invariant evaluated on a concrete run. -/
theorem revision_count_invariant_witness :
    ((runChapterGraph exampleEnv 2).getD dummyOutcome).rc_trace.head?
        = some 0
    ∧ List.Chain' (· ≤ ·)
        ((runChapterGraph exampleEnv 2).getD dummyOutcome).rc_trace
    ∧ (∀ x ∈ ((runChapterGraph exampleEnv 2).getD dummyOutcome).rc_trace,
        x ≤ 2)
    ∧ ((runChapterGraph exampleEnv 2).getD
        dummyOutcome).progress_revision_count ≤ 2 :=
  revision_count_invariant exampleEnv 2 _ (by decide)

/-- Claim C3: every chapter run terminates, with at most
`max_revisions + 1` draft/review cycles before persisting, the plan and
persist nodes running exactly once; and when every review triggers revision
and `max_revisions = 2`, the plan runs exactly once, draft and review exactly
3 times each, and persist exactly once. -/
theorem bounded_revision_cycles (env : ProviderEnv) (mr : Nat) :
    (∃ o, runChapterGraph env mr = some o
      ∧ o.draft_calls ≤ mr + 1 ∧ o.review_calls ≤ mr + 1
      ∧ o.plan_calls = 1 ∧ o.persist_calls = 1)
    ∧ (allReviewsTriggerRevision env →
        ∀ o, runChapterGraph env 2 = some o →
          o.plan_calls = 1 ∧ o.draft_calls = 3 ∧ o.review_calls = 3
          ∧ o.persist_calls = 1) := by
  constructor
  · have hsome := runChapterGraph_isSome env mr
    cases ho : runChapterGraph env mr with
    | none => rw [ho] at hsome; simp at hsome
    | some o =>
      obtain ⟨stF, n, tr, hrec, rfl⟩ := runChapterGraph_inv env mr o ho
      obtain ⟨⟨hkn, hbound⟩, _, _⟩ :=
        chapterLoop_sound env mr (mr + 2) 0 _ stF n tr hrec (Nat.zero_le mr)
          (fun hc => absurd rfl hc)
      rw [if_pos (show critiqueOfReviewResult (none : Option Review) = []
        from rfl)] at hbound
      simp only [] at hbound
      refine ⟨_, rfl, ?_, ?_, rfl, rfl⟩
      · show n ≤ mr + 1
        omega
      · show n ≤ mr + 1
        omega
  · intro htrig o ho
    obtain ⟨stF, n, tr, hrec, rfl⟩ := runChapterGraph_inv env 2 o ho
    have hcount := chapterLoop_count_exact env 2 htrig (2 + 2) 0 _ stF n tr
      hrec (Nat.zero_le 2) (fun hc => absurd rfl hc)
    rw [if_pos (show critiqueOfReviewResult (none : Option Review) = []
      from rfl)] at hcount
    simp only [] at hcount
    refine ⟨rfl, ?_, ?_, rfl⟩
    · show n = 3
      omega
    · show n = 3
      omega

/-- Claim C3 witness: the exact call counts on a concrete run where every
review requests revision. -/
theorem bounded_revision_cycles_witness :
    ((runChapterGraph exampleEnv 2).getD dummyOutcome).plan_calls = 1
    ∧ ((runChapterGraph exampleEnv 2).getD dummyOutcome).draft_calls = 3
    ∧ ((runChapterGraph exampleEnv 2).getD dummyOutcome).review_calls = 3
    ∧ ((runChapterGraph exampleEnv 2).getD dummyOutcome).persist_calls = 1 :=
  (bounded_revision_cycles exampleEnv 2).2
    (fun k => by
      have h0 : (reviewAt exampleEnv 0).effective_should_revise = true := by
        decide
      exact h0)
    _ (by decide)

/-- Claim C1 witness: a guardrail failure alone (explicit refusal, score 95,
empty content) forces revision, and the transition equivalence holds at
`revision_count = 0 < 2 = max_revisions`. -/
theorem review_effective_revise_decision_witness :
    (chapterNodeReviewCore [] ⟨ScoreVal.num 95, false, [], []⟩
        []).effective_should_revise = true
    ∧ (chapterRouteReview
          (chapterNodeReviewCore [] ⟨ScoreVal.num 95, false, [], []⟩ []) 0 2
          = Route.revise
        ↔ ((chapterNodeReviewCore [] ⟨ScoreVal.num 95, false, [], []⟩
            []).effective_should_revise = true ∧ 0 < 2)) :=
  ⟨(review_effective_revise_decision [] ⟨ScoreVal.num 95, false, [], []⟩
      [] 0 2).2.2.2.1 rfl rfl (by decide),
    (review_effective_revise_decision [] ⟨ScoreVal.num 95, false, [], []⟩
      [] 0 2).2.1⟩

/-- Claim C4 witness: the first draft of a run does not increment the
counter, and a draft after a review with a non-empty critique does. -/
theorem draft_revision_increment_witness :
    (draftStep exampleEnv 0 initialLoopState).revision_count
        = initialLoopState.revision_count
    ∧ (draftStep exampleEnv 0
        { initialLoopState with
            review_result := some (reviewAt exampleEnv 0) }).revision_count
        = initialLoopState.revision_count + 1 :=
  ⟨(draft_revision_increment exampleEnv 0 initialLoopState).2.1 rfl,
    (draft_revision_increment exampleEnv 0
      { initialLoopState with
          review_result := some (reviewAt exampleEnv 0) }).2.2.1
      (reviewAt exampleEnv 0) rfl (by decide)⟩

/-- Claim C10 witness: concrete clampings — 79.5 truncates to 79, 101 clamps
to 100, −1 clamps to 0, and an unparseable score forces revision. -/
theorem review_score_clamping_witness :
    parseScore (ScoreVal.num (159 / 2)) = ⌊(159 / 2 : ℚ)⌋
    ∧ parseScore (ScoreVal.num 101) = 100
    ∧ parseScore (ScoreVal.num (-1)) = 0
    ∧ (chapterNodeReviewCore [] ⟨ScoreVal.nan, false, [], []⟩
        []).effective_should_revise = true :=
  ⟨(review_score_clamping (ScoreVal.num (159 / 2)) (159 / 2) [] []
      ⟨ScoreVal.nan, false, [], []⟩).2.2.2.1 (by norm_num) (by norm_num),
    (review_score_clamping (ScoreVal.num 101) 101 [] []
      ⟨ScoreVal.nan, false, [], []⟩).2.1 (by norm_num),
    (review_score_clamping (ScoreVal.num (-1)) (-1) [] []
      ⟨ScoreVal.nan, false, [], []⟩).2.2.1 (by norm_num),
    (review_score_clamping ScoreVal.nan 0 [] []
      ⟨ScoreVal.nan, false, [], []⟩).2.2.2.2.2.2.1 rfl⟩

/-! ### Lemmas about fallback aggregation -/

theorem dedupAppend_nil (acc : List Str) : dedupAppend acc [] = acc := rfl

theorem dedupAppend_cons (acc : List Str) (x : Str) (l : List Str) :
    dedupAppend acc (x :: l)
      = dedupAppend (if x ∈ acc then acc else acc ++ [x]) l := rfl

theorem dedupAppend_append (acc l1 l2 : List Str) :
    dedupAppend acc (l1 ++ l2) = dedupAppend (dedupAppend acc l1) l2 :=
  List.foldl_append _ _ _ _

theorem appendStageIfNew_eq (acc : List Str) (item : Str) :
    appendStageIfNew acc item =
      dedupAppend acc
        (if (strip item).isEmpty then [] else [strip item]) := by
  show (if !(strip item).isEmpty && decide (strip item ∉ acc)
        then acc ++ [strip item] else acc) = _
  by_cases h1 : (strip item).isEmpty = true
  · rw [if_pos h1, if_neg (by simp [h1]), dedupAppend_nil]
  · rw [if_neg h1, dedupAppend_cons, dedupAppend_nil]
    by_cases h2 : strip item ∈ acc
    · rw [if_pos h2, if_neg (by simp [h2])]
    · rw [if_neg h2, if_pos (by simp [h1, h2])]

theorem foldl_appendStage (items : List Str) :
    ∀ acc, items.foldl appendStageIfNew acc
      = dedupAppend acc ((items.map strip).filter (fun t => !t.isEmpty)) := by
  induction items with
  | nil => intro acc; rfl
  | cons i rest ih =>
    intro acc
    rw [List.foldl_cons, ih, appendStageIfNew_eq]
    by_cases h1 : (strip i).isEmpty = true
    · rw [if_pos h1, dedupAppend_nil]
      have hstep : ((i :: rest).map strip).filter (fun t => !t.isEmpty)
          = (rest.map strip).filter (fun t => !t.isEmpty) := by
        simp [List.filter_cons, h1]
      rw [hstep]
    · rw [if_neg h1]
      have hstep : ((i :: rest).map strip).filter (fun t => !t.isEmpty)
          = strip i :: (rest.map strip).filter (fun t => !t.isEmpty) := by
        simp [List.filter_cons, h1]
      rw [hstep]
      conv_rhs => rw [dedupAppend_cons]
      rfl

theorem mergeFallbackStages_eq (existing : List Str) (p : StagePayload) :
    mergeFallbackStages existing p =
      dedupAppend (existing.foldl appendStageIfNew [])
        (((p.fallback_stages.map strip).filter (fun t => !t.isEmpty)) ++
          (if p.used_fallback && !(strip p.fallback_stage).isEmpty
           then [strip p.fallback_stage] else [])) := by
  unfold mergeFallbackStages
  cases hu : p.used_fallback with
  | true =>
    show appendStageIfNew
        (p.fallback_stages.foldl appendStageIfNew
          (existing.foldl appendStageIfNew [])) p.fallback_stage = _
    rw [foldl_appendStage, appendStageIfNew_eq, ← dedupAppend_append]
    congr 1
    rw [Bool.true_and]
    by_cases h2 : (strip p.fallback_stage).isEmpty = true
    · rw [if_pos h2, if_neg (by simp [h2])]
    · rw [if_neg h2, if_pos (by simp [h2])]
  | false =>
    show p.fallback_stages.foldl appendStageIfNew
        (existing.foldl appendStageIfNew []) = _
    rw [foldl_appendStage, Bool.false_and,
      if_neg (show ¬((false : Bool) = true) by simp), List.append_nil]

theorem foldl_appendStage_normalized :
    ∀ (l acc : List Str),
      (∀ x ∈ l, strip x = x ∧ x ≠ []) → l.Nodup → (∀ x ∈ l, x ∉ acc) →
      l.foldl appendStageIfNew acc = acc ++ l := by
  intro l
  induction l with
  | nil => intro acc _ _ _; simp
  | cons x rest ih =>
    intro acc hstrip hnodup hdisj
    rw [List.foldl_cons]
    have hx := hstrip x (by simp)
    have hstep : appendStageIfNew acc x = acc ++ [x] := by
      show (if !(strip x).isEmpty && decide (strip x ∉ acc)
            then acc ++ [strip x] else acc) = acc ++ [x]
      rw [hx.1]
      rw [if_pos (by
        simp only [Bool.and_eq_true, Bool.not_eq_true', decide_eq_true_eq]
        exact ⟨by simpa [List.isEmpty_iff] using hx.2, hdisj x (by simp)⟩)]
    rw [hstep, ih (acc ++ [x]) (fun y hy => hstrip y (by simp [hy]))
      (List.nodup_cons.mp hnodup).2 ?_]
    · rw [List.append_assoc]
      rfl
    · intro y hy
      simp only [List.mem_append, List.mem_singleton]
      rintro (hyacc | rfl)
      · exact hdisj y (by simp [hy]) hyacc
      · exact (List.nodup_cons.mp hnodup).1 hy

theorem appendStageIfNew_mem (acc : List Str) (item x : Str) :
    x ∈ appendStageIfNew acc item
      ↔ x ∈ acc ∨ (strip item = x ∧ x ≠ []) := by
  rw [appendStageIfNew_eq]
  by_cases h1 : (strip item).isEmpty = true
  · rw [if_pos h1, dedupAppend_nil]
    have hempty : strip item = [] := List.isEmpty_iff.mp h1
    constructor
    · exact Or.inl
    · rintro (hx | ⟨heq, hne⟩)
      · exact hx
      · exact (hne (by rw [← heq]; exact hempty)).elim
  · rw [if_neg h1, dedupAppend_cons, dedupAppend_nil]
    have hne : strip item ≠ [] := by simpa [List.isEmpty_iff] using h1
    by_cases h2 : strip item ∈ acc
    · rw [if_pos h2]
      constructor
      · exact Or.inl
      · rintro (hx | ⟨rfl, _⟩)
        · exact hx
        · exact h2
    · rw [if_neg h2]
      rw [List.mem_append, List.mem_singleton]
      constructor
      · rintro (hx | rfl)
        · exact Or.inl hx
        · exact Or.inr ⟨rfl, hne⟩
      · rintro (hx | ⟨rfl, _⟩)
        · exact Or.inl hx
        · exact Or.inr rfl

theorem foldl_appendStage_mem (items : List Str) :
    ∀ (acc : List Str) (x : Str),
      x ∈ items.foldl appendStageIfNew acc
        ↔ x ∈ acc ∨ ∃ y ∈ items, strip y = x ∧ x ≠ [] := by
  induction items with
  | nil => intro acc x; simp
  | cons i rest ih =>
    intro acc x
    rw [List.foldl_cons, ih, appendStageIfNew_mem]
    constructor
    · rintro ((hx | ⟨hs, hne⟩) | ⟨y, hy, hs, hne⟩)
      · exact Or.inl hx
      · exact Or.inr ⟨i, by simp, hs, hne⟩
      · exact Or.inr ⟨y, by simp [hy], hs, hne⟩
    · rintro (hx | ⟨y, hy, hs, hne⟩)
      · exact Or.inl (Or.inl hx)
      · rcases List.mem_cons.mp hy with rfl | hy
        · exact Or.inl (Or.inr ⟨hs, hne⟩)
        · exact Or.inr ⟨y, hy, hs, hne⟩

theorem mergeFallbackStages_mem (existing : List Str) (p : StagePayload)
    (x : Str) :
    x ∈ mergeFallbackStages existing p ↔
      ((∃ y ∈ existing, strip y = x ∧ x ≠ [])
       ∨ (∃ y ∈ p.fallback_stages, strip y = x ∧ x ≠ [])
       ∨ (p.used_fallback = true ∧ strip p.fallback_stage = x ∧ x ≠ [])) := by
  unfold mergeFallbackStages
  cases hu : p.used_fallback with
  | true =>
    show x ∈ appendStageIfNew
        (p.fallback_stages.foldl appendStageIfNew
          (existing.foldl appendStageIfNew [])) p.fallback_stage ↔ _
    rw [appendStageIfNew_mem, foldl_appendStage_mem, foldl_appendStage_mem]
    simp only [List.not_mem_nil, false_or, eq_self_iff_true, true_and]
    exact or_assoc
  | false =>
    show x ∈ p.fallback_stages.foldl appendStageIfNew
        (existing.foldl appendStageIfNew []) ↔ _
    rw [foldl_appendStage_mem, foldl_appendStage_mem]
    simp only [List.not_mem_nil, false_or, Bool.false_eq_true, false_and,
      or_false]

theorem appendStageIfNew_nodup (acc : List Str) (item : Str)
    (h : acc.Nodup) : (appendStageIfNew acc item).Nodup := by
  rw [appendStageIfNew_eq]
  by_cases h1 : (strip item).isEmpty = true
  · rw [if_pos h1, dedupAppend_nil]
    exact h
  · rw [if_neg h1, dedupAppend_cons, dedupAppend_nil]
    by_cases h2 : strip item ∈ acc
    · rw [if_pos h2]
      exact h
    · rw [if_neg h2]
      rw [List.nodup_append]
      refine ⟨h, List.nodup_singleton _, ?_⟩
      intro a ha hb
      simp only [List.mem_singleton] at hb
      rw [hb] at ha
      exact h2 ha

theorem foldl_appendStage_nodup (items : List Str) :
    ∀ acc : List Str, acc.Nodup →
      (items.foldl appendStageIfNew acc).Nodup := by
  induction items with
  | nil => intro acc h; exact h
  | cons i rest ih =>
    intro acc h
    rw [List.foldl_cons]
    exact ih _ (appendStageIfNew_nodup acc i h)

theorem mergeFallbackStages_nodup (existing : List Str) (p : StagePayload) :
    (mergeFallbackStages existing p).Nodup := by
  unfold mergeFallbackStages
  cases hu : p.used_fallback with
  | true =>
    show (appendStageIfNew
        (p.fallback_stages.foldl appendStageIfNew
          (existing.foldl appendStageIfNew [])) p.fallback_stage).Nodup
    exact appendStageIfNew_nodup _ _
      (foldl_appendStage_nodup _ _ (foldl_appendStage_nodup _ _ List.nodup_nil))
  | false =>
    show (p.fallback_stages.foldl appendStageIfNew
        (existing.foldl appendStageIfNew [])).Nodup
    exact foldl_appendStage_nodup _ _
      (foldl_appendStage_nodup _ _ List.nodup_nil)

/-- Claim C6 counterexample: the merge as claimed keeps a payload entry
verbatim, but the source strips it — on `fallback_stages = ["x "]` the code
produces `["x"]` while the claimed merge produces `["x "]`. -/
theorem merge_fallback_claimed_counterexample :
    mergeFallbackStages []
        { used_fallback := false, fallback_stage := [],
          fallback_stages := ["x ".toList] }
      ≠ mergeFallbackStagesClaimed []
        { used_fallback := false, fallback_stage := [],
          fallback_stages := ["x ".toList] } := by decide

/-- Claim C6 (amended): the merge normalizes as it goes — it re-deduplicates
the stripped, non-empty entries of the existing list (a no-op on every list
the engine itself produces), appends the stripped form of each payload
`fallback_stages` entry that is non-empty and not already present, then the
stripped `fallback_stage` name when `used_fallback` is true and the stripped
name is non-empty and not already present; the result is duplicate-free, its
membership is the union of the stripped non-empty contributions, and the
final output's `fallback_stages` is the left fold of the merge over the plan
payload and every draft/review payload in execution order, with
`used_fallback` true exactly when that list is non-empty. -/
theorem merge_fallback_stages_amended (existing : List Str) (p : StagePayload)
    (x : Str) (env : ProviderEnv) (mr : Nat) :
    ((∀ y ∈ existing, strip y = y ∧ y ≠ []) → existing.Nodup →
      mergeFallbackStages existing p =
        dedupAppend existing
          (((p.fallback_stages.map strip).filter (fun t => !t.isEmpty)) ++
            (if p.used_fallback && !(strip p.fallback_stage).isEmpty
             then [strip p.fallback_stage] else [])))
    ∧ (mergeFallbackStages existing p).Nodup
    ∧ (x ∈ mergeFallbackStages existing p ↔
        ((∃ y ∈ existing, strip y = x ∧ x ≠ [])
         ∨ (∃ y ∈ p.fallback_stages, strip y = x ∧ x ≠ [])
         ∨ (p.used_fallback = true ∧ strip p.fallback_stage = x ∧ x ≠ [])))
    ∧ (∀ o, runChapterGraph env mr = some o →
        o.output_fallback_stages =
          (env.plan_fb :: stageSeqFrom env 0 o.draft_calls).foldl
            mergeFallbackStages []
        ∧ o.output_used_fallback = !o.output_fallback_stages.isEmpty) := by
  refine ⟨?_, mergeFallbackStages_nodup existing p,
    mergeFallbackStages_mem existing p x, ?_⟩
  · intro h1 h2
    rw [mergeFallbackStages_eq]
    have hnorm := foldl_appendStage_normalized existing [] h1 h2 (by simp)
    rw [hnorm]
    rfl
  · intro o ho
    obtain ⟨stF, n, tr, hrec, rfl⟩ := runChapterGraph_inv env mr o ho
    obtain ⟨_, _, hfb⟩ :=
      chapterLoop_sound env mr (mr + 2) 0 _ stF n tr hrec (Nat.zero_le mr)
        (fun hc => absurd rfl hc)
    constructor
    · show stF.fallback_stages = _
      rw [List.foldl_cons]
      simpa using hfb
    · rfl

/-- Claim C6 witness: on a run where the plan falls back (`chapter_plan`) and
every review falls back (`chapter_review`), the output list is exactly
`["chapter_plan", "chapter_review"]` with `used_fallback = true`. -/
theorem merge_fallback_stages_amended_witness :
    ((runChapterGraph exampleEnv 2).getD dummyOutcome).output_fallback_stages
        = ["chapter_plan".toList, "chapter_review".toList]
    ∧ ((runChapterGraph exampleEnv 2).getD dummyOutcome).output_used_fallback
        = true := by
  have h := (merge_fallback_stages_amended [] planFallback [] exampleEnv
      2).2.2.2 ((runChapterGraph exampleEnv 2).getD dummyOutcome) (by decide)
  refine ⟨?_, ?_⟩
  · rw [h.1]
    decide
  · rw [h.2]
    decide

/-! ### The telemetry tracker and the shared node_meta dict -/

/-- Claim C7 (code bug): `_mark_node_start` and `_mark_node_error` leave the
caller's prior snapshot unchanged, as does `_mark_node_end` without metadata
or when the prior snapshot carries no `node_meta` dict; but a node end with
metadata on a prior snapshot that already has a `node_meta` dict writes into
that shared dict in place (`_copy_progress` does not copy it), so the
caller's prior snapshot changes — contradicting the never-mutates claim. -/
theorem tracker_prior_snapshot_mutation :
    (markNodeEnd examplePriorProgress "chapter_draft".toList
        (some exampleDraftMeta) 1).prior_after ≠ examplePriorProgress
    ∧ (∀ prior node rc, (markNodeStart prior node rc).prior_after = prior)
    ∧ (∀ prior node err rc,
        (markNodeError prior node err rc).prior_after = prior)
    ∧ (∀ prior node rc, (markNodeEnd prior node none rc).prior_after = prior)
    ∧ (∀ prior node m rc, prior.node_meta = none →
        (markNodeEnd prior node m rc).prior_after = prior) := by
  refine ⟨by decide, fun _ _ _ => rfl, fun _ _ _ _ => rfl,
    fun _ _ _ => rfl, ?_⟩
  intro prior node m rc hnm
  unfold markNodeEnd
  by_cases ht : metaTruthy m = true
  · rw [if_pos ht, hnm]
  · rw [if_neg ht]

/-! ### Lemmas about outline normalization and chapter retrieval -/

theorem normalizeChapters_spec :
    ∀ (raws : List RawOutlineChapter) (e : Int) (out : List NormChapter),
      normalizeChapters raws e = .ok out →
      out.length = raws.length
      ∧ ∀ c ∈ out, e ≤ c.number ∧ c.number < e + out.length := by
  intro raws
  induction raws with
  | nil =>
    intro e out h
    rw [normalizeChapters] at h
    simp only [Except.ok.injEq] at h
    subst h
    exact ⟨rfl, by simp⟩
  | cons c rest ih =>
    obtain ⟨num, title, bullets⟩ := c
    intro e out h
    cases num with
    | none =>
      rw [normalizeChapters] at h
      simp at h
    | some nn =>
      rw [normalizeChapters] at h
      by_cases hne : nn ≠ e
      · rw [if_pos hne] at h
        simp at h
      · rw [if_neg hne] at h
        push_neg at hne
        by_cases ht : (strip title).isEmpty = true
        · rw [if_pos ht] at h
          simp at h
        · rw [if_neg ht] at h
          cases hrec : normalizeChapters rest (e + 1) with
          | error msg =>
            rw [hrec] at h
            simp at h
          | ok tail =>
            rw [hrec] at h
            simp only [Except.ok.injEq] at h
            subst h
            obtain ⟨hlen, hmem⟩ := ih (e + 1) tail hrec
            refine ⟨by simp [hlen], ?_⟩
            intro d hd
            simp only [List.length_cons]
            rcases List.mem_cons.mp hd with rfl | hd
            · constructor
              · show e ≤ nn
                omega
              · show (nn : ℤ) < e + ((tail.length + 1 : ℕ) : ℤ)
                push_cast
                omega
            · have hb := hmem d hd
              push_cast at hb
              constructor
              · omega
              · show d.number < e + ((tail.length + 1 : ℕ) : ℤ)
                push_cast
                omega

theorem normalizeOutline_facts (oj : Option RawOutline) (ol : NormOutline)
    (hok : normalizeOutline oj = .ok ol) :
    ol.chapters ≠ []
    ∧ ∀ c ∈ ol.chapters,
        1 ≤ c.number ∧ c.number ≤ (ol.chapters.length : Int) := by
  cases oj with
  | none => simp [normalizeOutline] at hok
  | some raw =>
    rw [normalizeOutline] at hok
    by_cases hemp : raw.chapters.isEmpty = true
    · rw [if_pos hemp] at hok
      simp at hok
    · rw [if_neg hemp] at hok
      cases hrec : normalizeChapters raw.chapters 1 with
      | error msg =>
        rw [hrec] at hok
        simp at hok
      | ok cs =>
        rw [hrec] at hok
        simp only [Except.ok.injEq] at hok
        subst hok
        obtain ⟨hlen, hmem⟩ := normalizeChapters_spec raw.chapters 1 cs hrec
        constructor
        · intro hnil
          have hnil2 : cs = [] := hnil
          rw [hnil2] at hlen
          exact hemp (by
            rw [List.isEmpty_iff]
            exact List.length_eq_zero.mp hlen.symm)
        · intro c hc
          have hb := hmem c hc
          refine ⟨hb.1, ?_⟩
          show c.number ≤ (cs.length : ℤ)
          omega

/-- Claim C8: when the project has no usable outline, or the requested
chapter number is outside the outline's chapter-number range, the chapter run
fails in the retrieve-context node with zero plan/draft/review/persist
calls — before any generation-provider call. -/
theorem retrieve_fails_before_generation (oj : Option RawOutline)
    (cni : Option Int) (env : ProviderEnv) (mr : Nat) :
    ((∃ e, normalizeOutline oj = .error e) →
      ∃ msg, runChapterMode ⟨oj, cni⟩ env mr
        = .failed "chapter_retrieve_context".toList msg
            { plan_calls := 0, draft_calls := 0, review_calls := 0,
              persist_calls := 0 })
    ∧ (∀ ol k, normalizeOutline oj = .ok ol → cni = some k →
        (k < 1 ∨ (ol.chapters.length : Int) < k) →
        runChapterMode ⟨oj, cni⟩ env mr
          = .failed "chapter_retrieve_context".toList
              "chapter_number is outside outline range".toList
              { plan_calls := 0, draft_calls := 0, review_calls := 0,
                persist_calls := 0 }) := by
  constructor
  · rintro ⟨e, he⟩
    refine ⟨e, ?_⟩
    unfold runChapterMode prepareChapterContext
    rw [he]
  · rintro ol k hok rfl hk
    obtain ⟨hne, hbounds⟩ := normalizeOutline_facts oj ol hok
    have hfind : ol.chapters.find? (fun c => c.number == k) = none := by
      rw [List.find?_eq_none]
      intro c hc
      have hb := hbounds c hc
      simp only [beq_iff_eq]
      intro heq
      rcases hk with hk | hk
      · omega
      · omega
    have hprep : prepareChapterContext oj (some k)
        = .error "chapter_number is outside outline range".toList := by
      unfold prepareChapterContext
      rw [hok]
      show (if ol.chapters.isEmpty = true then
              Except.error "Project does not have an outline yet".toList
            else
              match ol.chapters.find? (fun c => c.number == k) with
              | none =>
                Except.error "chapter_number is outside outline range".toList
              | some target => Except.ok (ol, k, target)) = _
      rw [if_neg (by
        intro hemp
        exact hne (List.isEmpty_iff.mp hemp)), hfind]
    unfold runChapterMode
    rw [hprep]

/-- Claim C8 witness: a project with no outline fails in retrieve with all
generation counters at zero. -/
theorem retrieve_fails_before_generation_witness :
    ∃ msg, runChapterMode ⟨none, some 1⟩ exampleEnv 2
      = .failed "chapter_retrieve_context".toList msg
          { plan_calls := 0, draft_calls := 0, review_calls := 0,
            persist_calls := 0 } :=
  (retrieve_fails_before_generation none (some 1) exampleEnv 2).1 ⟨_, rfl⟩

/-! ### Lemmas about chapter persistence -/

theorem dictSet_idem {κ β : Type} [DecidableEq κ] (l : List (κ × β))
    (k : κ) (v : β) : dictSet (dictSet l k v) k v = dictSet l k v := by
  induction l with
  | nil => simp [dictSet]
  | cons kv rest ih =>
    obtain ⟨k0, v0⟩ := kv
    by_cases h : k0 = k
    · subst h
      simp [dictSet]
    · simp only [dictSet, if_neg h]
      rw [ih]

theorem dictSet_countP {κ β : Type} [DecidableEq κ] [BEq κ] [LawfulBEq κ]
    (l : List (κ × β)) (k : κ) (v : β) (h : (l.map Prod.fst).Nodup) :
    (dictSet l k v).countP (fun row => row.1 == k) = 1 := by
  induction l with
  | nil => simp [dictSet]
  | cons kv rest ih =>
    obtain ⟨k0, v0⟩ := kv
    simp only [List.map_cons, List.nodup_cons] at h
    obtain ⟨hk0, hrest⟩ := h
    by_cases heq : k0 = k
    · subst heq
      rw [show dictSet ((k0, v0) :: rest) k0 v = (k0, v) :: rest from by
        simp [dictSet]]
      have hzero : rest.countP (fun row => row.1 == k0) = 0 := by
        rw [List.countP_eq_zero]
        intro a ha
        simp only [beq_iff_eq]
        intro hak
        exact hk0 (by
          rw [← hak]
          exact List.mem_map_of_mem Prod.fst ha)
      simp [List.countP_cons, hzero]
    · rw [show dictSet ((k0, v0) :: rest) k v
          = (k0, v0) :: dictSet rest k v from by simp [dictSet, heq]]
      simp [List.countP_cons, beq_iff_eq, heq, ih hrest]

theorem dictSet_mem {κ β : Type} [DecidableEq κ] (l : List (κ × β))
    (k : κ) (v : β) : (k, v) ∈ dictSet l k v := by
  induction l with
  | nil => simp [dictSet]
  | cons kv rest ih =>
    obtain ⟨k0, v0⟩ := kv
    by_cases h : k0 = k
    · subst h
      simp [dictSet]
    · simp only [dictSet, if_neg h]
      exact List.mem_cons_of_mem _ ih

/-- Claim C9: persisting the same chapter data twice for the same chapter
number is idempotent — the second run returns the same store and record, the
store holds exactly one row for that chapter number (given the
`unique_together` invariant that the incoming store's keys are distinct), and
that row carries the first run's title, content, summary and status. -/
theorem persist_idempotent (store : ChapterStore) (n : Int)
    (targetTitle : Str) (data : ChapterData) (s1 : ChapterStore)
    (r1 : ChapterRecord)
    (hnd : (store.map Prod.fst).Nodup)
    (h : persistChapterResult store n targetTitle data = .ok (s1, r1)) :
    persistChapterResult s1 n targetTitle data = .ok (s1, r1)
    ∧ s1.countP (fun row => row.1 == n) = 1
    ∧ (n, r1) ∈ s1 := by
  unfold persistChapterResult at h ⊢
  by_cases hc : (strip data.content).isEmpty = true
  · rw [if_pos hc] at h
    simp at h
  · rw [if_neg hc] at h ⊢
    simp only [Except.ok.injEq, Prod.mk.injEq] at h
    obtain ⟨hs1, hr1⟩ := h
    subst hs1
    subst hr1
    refine ⟨?_, dictSet_countP store n _ hnd, dictSet_mem store n _⟩
    rw [dictSet_idem]

/-- Claim C9 witness: persisting a concrete chapter into an empty store twice
yields the same single row. -/
theorem persist_idempotent_witness :
    persistChapterResult exampleChapterStore 1 "Foundations".toList
        exampleChapterData
      = .ok (exampleChapterStore, exampleChapterRecord)
    ∧ exampleChapterStore.countP (fun row => row.1 == (1 : Int)) = 1
    ∧ ((1 : Int), exampleChapterRecord) ∈ exampleChapterStore :=
  persist_idempotent [] 1 "Foundations".toList exampleChapterData _ _
    (by simp) (by rfl)

end BookAgent
